import Mathlib

/-! # The crawler, embedded

A shallow embedding of `github.com/clarke94/crawler`:

* `enforce/samedomainonce` : the default eligibility policy (`Enforce`),
* `storage/memory`        : the in-memory visited store,
* `scrape/html`           : the HTML scraper, over the tokens of the body,
* `crawler.go`            : `New` and its options, `check`, `crawl`, `goCrawl`, `Crawl`.

Go values are represented as follows.

* A Go `string` is a Lean `String`; the byte operations used by the code only look for
  ASCII bytes (`/`, `:`, `[`, `]`, digits), so they are read character by character.
* A pointer `*url.URL` is an `Option URL`, `none` being `nil`.
* A `map[url.URL]bool` is the list of its keys.  The policy never looks at the stored
  booleans.  A `range` over a map starts at an entry chosen by the runtime; the choice
  is an explicit number `k`, and the loop sees the keys rotated by `k`.
* An `error` is an `Option GoError`, `none` being `nil`.
* The collaborators of a crawler are records of functions on a state `σ` of their own.
  A running crawl is a `World`: that state, the list of collaborator calls made so far,
  `c.err` and the goroutines that have not finished.  The scheduler is a list of numbers,
  each choosing the goroutine that runs next.
-/

namespace crawler

/-! ## Strings -/

/-- Go `strings.TrimSuffix`: `s` without the trailing `suffix`, or `s` itself when it does
not end in `suffix`. -/
def TrimSuffix (s suffix : String) : String :=
  if suffix.data.isSuffixOf s.data then
    ⟨s.data.take (s.data.length - suffix.data.length)⟩
  else s

/-- Go `strings.LastIndexByte`: the index of the last `c` in `s`, `none` for `-1`. -/
def LastIndexByte (s : List Char) (c : Char) : Option Nat :=
  let i := s.reverse.indexOf c
  if i < s.length then some (s.length - 1 - i) else none

/-- Go `strings.HasPrefix` for a one byte prefix. -/
def HasPrefixByte (s : List Char) (c : Char) : Bool :=
  match s with
  | [] => false
  | d :: _ => d == c

/-- Go `strings.HasSuffix` for a one byte suffix. -/
def HasSuffixByte (s : List Char) (c : Char) : Bool :=
  match s.getLast? with
  | none => false
  | some d => d == c

/-! ## URLs -/

/-- Go `url.URL`.  `User` is a pointer in Go and struct equality compares the pointer,
so it is kept as the address it holds. -/
structure URL where
  Scheme : String
  Opaque : String
  User : Option Nat
  Host : String
  Path : String
  RawPath : String
  OmitHost : Bool
  ForceQuery : Bool
  RawQuery : String
  Fragment : String
  RawFragment : String
deriving DecidableEq, Repr

/-- Go `net/url.validOptionalPort`: the argument is empty or a colon followed by digits. -/
def validOptionalPort (port : List Char) : Bool :=
  match port with
  | [] => true
  | c :: rest => c == ':' && rest.all (fun b => decide ('0' ≤ b) && decide (b ≤ '9'))

/-- Go `net/url.splitHostPort`, host part: a valid trailing `:port` is cut off, then one
pair of square brackets around the rest. -/
def splitHost (hostPort : List Char) : List Char :=
  let host :=
    match LastIndexByte hostPort ':' with
    | some colon => if validOptionalPort (hostPort.drop colon) then hostPort.take colon else hostPort
    | none => hostPort
  if HasPrefixByte host '[' && HasSuffixByte host ']' then (host.drop 1).take (host.length - 2) else host

/-- Go `(*URL).Hostname`: `u.Host` without a valid port and without IPv6 brackets. -/
def URL.Hostname (u : URL) : String := ⟨splitHost u.Host.data⟩

/-- A URL with the given scheme, host and path and nothing else set, as `url.Parse` gives
for `scheme://host/path`. -/
def URL.simple (scheme host path : String) : URL :=
  { Scheme := scheme, Opaque := "", User := none, Host := host, Path := path, RawPath := "",
    OmitHost := false, ForceQuery := false, RawQuery := "", Fragment := "", RawFragment := "" }

/-! ## Ranging over a map -/

/-- The keys of a map in the order in which one `range` statement yields them, when the
runtime starts the iteration at entry `k`. -/
def mapRange (m : List URL) (k : Nat) : List URL := m.rotate k

/-! ## `enforce/samedomainonce` -/

namespace SameDomainOnce

/-- Go `getDomain`: the hostname of the first key the `range` yields, `none` (the nil
pointer) for an empty map. -/
def getDomain (urls : List URL) (k : Nat) : Option String :=
  match mapRange urls k with
  | [] => none
  | key :: _ => some key.Hostname

/-- Go `isNothingVisited`: the nil test on the pointer `getDomain` returns. -/
def isNothingVisited (u : Option String) : Bool :=
  match u with
  | none => true
  | some _ => false

/-- Go `isDomainEqual`. -/
def isDomainEqual (visited found : String) : Bool := visited == found

/-- Go `isVisited`: the candidate is a key of the map. -/
def isVisited (visited : List URL) (found : URL) : Bool := decide (found ∈ visited)

/-- Go `isPathEqual`: some key has the candidate's path, one trailing slash apart.  The
loop returns at the first such key, so the order of the `range` is given too. -/
def isPathEqual (visited : List URL) (k : Nat) (found : URL) : Bool :=
  (mapRange visited k).any (fun key => TrimSuffix key.Path "/" == TrimSuffix found.Path "/")

/-- Go `(*SameDomainOnce).Enforce` for a non-nil candidate.  `k` and `k2` are the starting
entries of the two `range` loops (in `getDomain` and in `isPathEqual`). -/
def Enforce (visited : List URL) (k k2 : Nat) (u : URL) : Bool :=
  let visitedDomain := getDomain visited k
  if isNothingVisited visitedDomain then true
  else if !isDomainEqual (visitedDomain.getD "") u.Hostname then false
  else if isVisited visited u then false
  else if isPathEqual visited k2 u then false
  else true

/-- Go `(*SameDomainOnce).Enforce` as the `Enforcer` interface calls it, with a pointer.
With a nil candidate the first statement that touches it is `u.Hostname()`, reached only
when something was visited; the nil dereference panics, which is `none` here. -/
def EnforcePtr (visited : List URL) (k k2 : Nat) (u : Option URL) : Option Bool :=
  match u with
  | some url => some (Enforce visited k k2 url)
  | none => if isNothingVisited (getDomain visited k) then some true else none

end SameDomainOnce

/-! ## Errors -/

/-- Go `error` values that occur in the crawler: the sentinels of the packages, any other
error (known by its `Error()` text), and the result of `errors.Wrap` of
`github.com/pkg/errors`. -/
inductive GoError where
  | ErrInvalidURL
  | ErrRequester
  | ErrScraper
  | ErrStorer
  | MemoryErrInvalidURL
  | other (text : String)
  | wrap (cause : GoError) (message : String)
deriving DecidableEq, Repr

namespace GoError

/-- The `Error()` method.  A wrapped error prints its message, a colon and its cause. -/
def Error : GoError → String
  | ErrInvalidURL => "invalid URL"
  | ErrRequester => "requester error"
  | ErrScraper => "scraper error"
  | ErrStorer => "storage error"
  | MemoryErrInvalidURL => "invalid url"
  | other text => text
  | wrap cause message => message ++ ": " ++ cause.Error

/-- Go `errors.Cause` of `github.com/pkg/errors`: the innermost error of a chain of wraps. -/
def Cause : GoError → GoError
  | wrap cause _ => cause.Cause
  | e => e

/-- Go `errors.Is` for a sentinel `target`: some error of the chain is the target. -/
def Is : GoError → GoError → Bool
  | wrap cause message, target => wrap cause message == target || cause.Is target
  | e, target => e == target

end GoError

/-- Go `errors.Wrap(err, message)` for a non-nil `err`. -/
def Wrap (err : GoError) (message : String) : GoError := GoError.wrap err message

/-! ## `storage/memory` -/

/-- Go `memory.Memory`: the map `data`, as the list of its keys. -/
structure Memory where
  data : List URL
deriving DecidableEq, Repr

namespace Memory

/-- Go `memory.New`. -/
def New : Memory := { data := [] }

/-- Go `(*Memory).Read`. -/
def Read (m : Memory) : List URL × Option GoError := (m.data, none)

/-- Go `(*Memory).Write`: nil is refused, otherwise the key is set in the map, which adds
it unless it is there already. -/
def Write (m : Memory) (visited : Option URL) : Memory × Option GoError :=
  match visited with
  | none => (m, some GoError.MemoryErrInvalidURL)
  | some u => ({ data := if u ∈ m.data then m.data else m.data ++ [u] }, none)

end Memory

/-! ## `crawler.go` -/

/-- Go `*http.Request`, of which the crawler reads the field `URL`. -/
structure Request where
  URL : Option URL
deriving DecidableEq, Repr

/-- One call of a collaborator's method, with its arguments.  The crawl keeps the list of
the calls it has made, in order; the list is not part of the Go program. -/
inductive Call where
  | Read
  | Enforce (data : List URL) (u : Option URL)
  | Write (visited : Option URL)
  | Request (u : URL)
  | Do (req : Option Request)
  | Scrape (req : Option Request) (closer : Option String)
  | Info (visited : Option URL) (found : List (Option URL))
  | Error (err : GoError)
deriving DecidableEq, Repr

/-- A function result, or a panic. -/
inductive Ret (α : Type) where
  | ok (a : α)
  | panic
deriving DecidableEq, Repr

/-- Go interface `Storer`.  A collaborator may have state of its own; all collaborators of
one crawler share the state type `σ`, and every method returns the new state too. -/
structure Storer (σ : Type) where
  Read : σ → (List URL × Option GoError) × σ
  Write : Option URL → σ → Option GoError × σ

/-- Go interface `Scraper`.  The `io.ReadCloser` is the text it delivers, `none` for nil. -/
structure Scraper (σ : Type) where
  Scrape : Option Request → Option String → σ → (List (Option URL) × Option GoError) × σ

/-- Go interface `Requester`.  `Request` receives `u.String()`, here `u` itself; the
context and the nil body are constant. -/
structure Requester (σ : Type) where
  Request : URL → σ → (Option crawler.Request × Option GoError) × σ
  Do : Option crawler.Request → σ → (Option String × Option GoError) × σ

/-- Go interface `Logger`.  `Info` is handed the slice `found` itself, not a copy: it can
panic, and it can overwrite elements of the slice, which the caller then sees.  The list
it returns here is what the slice holds when the call returns. -/
structure Logger (σ : Type) where
  Error : GoError → σ → σ
  Info : Option URL → List (Option URL) → σ → Ret (List (Option URL) × σ)

/-- Go interface `Enforcer`.  The answer `none` is a call that panics instead of
returning, as the default policy does on a nil candidate. -/
structure Enforcer (σ : Type) where
  Enforce : List URL → Option URL → σ → Option Bool × σ

/-- Go `Crawler`, the collaborators.  The fields that change during a crawl (`err`, the
wait group) are in `World`. -/
structure Crawler (σ : Type) where
  requester : Requester σ
  enforcer : Enforcer σ
  scraper : Scraper σ
  storer : Storer σ
  logger : Logger σ

/-- A goroutine started by `goCrawl` that has not finished: it still has to run
`c.crawl(u)`, or `crawl` has returned `err` (and `wg.Done()` has run) and the goroutine
still has to store it in `c.err`. -/
inductive Task where
  | run (u : Option URL)
  | setErr (err : GoError)
deriving DecidableEq, Repr

/-- The state of a running crawl: the state of the collaborators, the calls made so far,
`c.err`, the unfinished goroutines and whether the process has panicked. -/
structure World (σ : Type) where
  env : σ
  calls : List Call
  err : Option GoError
  tasks : List Task
  panicked : Bool

/-- Go `(*Crawler).check`. -/
def check {σ : Type} (c : Crawler σ) (u : Option URL) (w : World σ) :
    Ret (Bool × Option GoError) × World σ :=
  match c.storer.Read w.env with
  | ((visitedURLs, err), s1) =>
    let w1 := { w with env := s1, calls := w.calls ++ [Call.Read] }
    match err with
    | some e => (Ret.ok (false, some (Wrap GoError.ErrStorer e.Error)), w1)
    | none =>
      match c.enforcer.Enforce visitedURLs u s1 with
      | (ok, s2) =>
        let w2 := { w1 with env := s2, calls := w1.calls ++ [Call.Enforce visitedURLs u] }
        match ok with
        | none => (Ret.panic, w2)
        | some false => (Ret.ok (false, none), w2)
        | some true =>
          match c.storer.Write u s2 with
          | (writeErr, s3) =>
            let w3 := { w2 with env := s3, calls := w2.calls ++ [Call.Write u] }
            match writeErr with
            | some e => (Ret.ok (false, some (Wrap GoError.ErrStorer e.Error)), w3)
            | none => (Ret.ok (true, none), w3)

/-- Go `(*Crawler).goCrawl`: `wg.Add(1)` and a new goroutine that will run `c.crawl(u)`. -/
def goCrawl {σ : Type} (u : Option URL) (w : World σ) : World σ :=
  { w with tasks := w.tasks ++ [Task.run u] }

/-- The slice `urls` of `crawl` after a call that was handed it and left `after` in it: a
callee can overwrite the elements of the caller's slice, not change its length. -/
def sliceAfter (urls after : List (Option URL)) : List (Option URL) :=
  after.take urls.length ++ urls.drop after.length

/-- Go `(*Crawler).crawl`, from the lock to the return (the deferred `wg.Done()` is the
removal of the task in `step`). -/
def crawl {σ : Type} (c : Crawler σ) (u : Option URL) (w : World σ) :
    Ret (Option GoError) × World σ :=
  match check c u w with
  | (Ret.panic, w1) => (Ret.panic, w1)
  | (Ret.ok (_, some err), w1) => (Ret.ok (some err), w1)
  | (Ret.ok (false, none), w1) => (Ret.ok none, w1)
  | (Ret.ok (true, none), w1) =>
    match u with
    | none => (Ret.panic, w1)
    | some url =>
      match c.requester.Request url w1.env with
      | ((_, some err), s2) =>
        (Ret.ok (some (Wrap GoError.ErrRequester err.Error)),
          { w1 with env := s2, calls := w1.calls ++ [Call.Request url] })
      | ((req, none), s2) =>
        match c.requester.Do req s2 with
        | ((_, some err), s3) =>
          (Ret.ok (some (Wrap GoError.ErrRequester err.Error)),
            { w1 with env := s3, calls := w1.calls ++ [Call.Request url, Call.Do req] })
        | ((resp, none), s3) =>
          match c.scraper.Scrape req resp s3 with
          | ((_, some err), s4) =>
            (Ret.ok (some (Wrap GoError.ErrScraper err.Error)),
              { w1 with env := s4,
                        calls := w1.calls ++ [Call.Request url, Call.Do req, Call.Scrape req resp] })
          | ((urls, none), s4) =>
            let w4 := { w1 with env := s4,
                                calls := w1.calls ++ [Call.Request url, Call.Do req, Call.Scrape req resp] }
            match req with
            | none => (Ret.panic, w4)
            | some r =>
              match c.logger.Info r.URL urls s4 with
              | Ret.panic => (Ret.panic, { w4 with calls := w4.calls ++ [Call.Info r.URL urls] })
              | Ret.ok (after, s5) =>
                let w5 := { w4 with env := s5, calls := w4.calls ++ [Call.Info r.URL urls] }
                (Ret.ok none,
                  (sliceAfter urls after).foldl (fun acc foundURL => goCrawl foundURL acc) w5)

/-- One scheduling step: the runtime lets goroutine number `k` (modulo the number of
unfinished ones) run.  A `run u` goroutine executes `c.crawl(u)`, which ends with
`wg.Done()`, and if the result is an error it is left with the assignment to `c.err`; a
`setErr` goroutine does that assignment and ends.  A panic stops the process.  An attempt
runs in one piece: `check` is atomic under the lock `c.mu`, and what other goroutines do
between the later calls of one attempt is not interleaved with them. -/
def step {σ : Type} (c : Crawler σ) (k : Nat) (w : World σ) : World σ :=
  if w.panicked then w
  else
    match w.tasks.get? (k % w.tasks.length) with
    | none => w
    | some (Task.setErr e) =>
      { w with err := some e, tasks := w.tasks.eraseIdx (k % w.tasks.length) }
    | some (Task.run u) =>
      match crawl c u { w with tasks := w.tasks.eraseIdx (k % w.tasks.length) } with
      | (Ret.panic, w1) => { w1 with panicked := true }
      | (Ret.ok none, w1) => w1
      | (Ret.ok (some e), w1) => { w1 with tasks := w1.tasks ++ [Task.setErr e] }

/-- The steps of a schedule, one after the other. -/
def runSched {σ : Type} (c : Crawler σ) (sched : List Nat) (w : World σ) : World σ :=
  sched.foldl (fun acc k => step c k acc) w

/-- The value of the wait group counter: the goroutines that have not yet run `wg.Done()`. -/
def wgCount {σ : Type} (w : World σ) : Nat :=
  (w.tasks.filter (fun t => match t with | Task.run _ => true | Task.setErr _ => false)).length

/-- What a call of `Crawl` comes to: it returns an error value, or the process panics,
or `wg.Wait()` is still blocked when the schedule ends. -/
inductive Outcome where
  | returned (err : Option GoError)
  | crashed
  | waiting
deriving DecidableEq, Repr

/-- Go `(*Crawler).Crawl`.  `sched` is what the runtime schedules between `goCrawl` and the
moment `Crawl` reads `c.err`; `wg.Wait()` lets `Crawl` go on only when the counter is 0. -/
def Crawl {σ : Type} (c : Crawler σ) (u : Option URL) (sched : List Nat) (w : World σ) :
    Outcome × World σ :=
  match u with
  | none => (Outcome.returned (some GoError.ErrInvalidURL), w)
  | some _ =>
    let w1 := runSched c sched (goCrawl u w)
    if w1.panicked then (Outcome.crashed, w1)
    else if wgCount w1 = 0 then (Outcome.returned w1.err, w1)
    else (Outcome.waiting, w1)

/-- Admission checks run one at a time, as the lock `c.mu` makes them: `check` for each
candidate in turn.  A panic ends the process, so nothing is checked after it. -/
def checkAll {σ : Type} (c : Crawler σ) : List (Option URL) → World σ → World σ
  | [], w => w
  | u :: rest, w =>
    match check c u w with
    | (Ret.panic, w1) => { w1 with panicked := true }
    | (Ret.ok _, w1) => checkAll c rest w1

/-! ## The default collaborators -/

/-- The state of the default collaborators: the in-memory store, and the entries at which
the runtime will start the `range` loops still to come (0 once the list is used up). -/
structure Env where
  store : Memory
  order : List Nat
deriving DecidableEq, Repr

/-- The in-memory store as a `Storer`. -/
def memoryStorer : Storer Env :=
  { Read := fun e => (e.store.Read, e),
    Write := fun u e => ((e.store.Write u).2, { e with store := (e.store.Write u).1 }) }

/-- The default policy as an `Enforcer`: each call has its two `range` loops started where
the runtime chooses. -/
def sameDomainOnceEnforcer : Enforcer Env :=
  { Enforce := fun visited u e =>
      (SameDomainOnce.EnforcePtr visited (e.order.headD 0) (e.order.tail.headD 0) u,
        { e with order := e.order.tail.tail }) }

/-- Go `print.Print` as a `Logger`: it prints and changes nothing.  `Info` prints
`visited.String()`, which panics on a nil URL. -/
def printLogger : Logger Env :=
  { Error := fun _ e => e,
    Info := fun visited found e =>
      match visited with
      | none => Ret.panic
      | some _ => Ret.ok (found, e) }

/-- What a site answers for one URL: the request cannot be built, it cannot be sent, the
body cannot be scraped, or the page is scraped and has the links `found`. -/
inductive Page where
  | noRequest (err : GoError)
  | noResponse (err : GoError)
  | noLinks (err : GoError)
  | links (found : List URL)
deriving DecidableEq, Repr

/-- A requester for a fixed site, in the way the test server of `crawler_test.go` stands
for the network: the request for `u` carries `u`, and sending it succeeds unless the site
says otherwise. -/
def siteRequester (site : URL → Page) : Requester Env :=
  { Request := fun u e =>
      match site u with
      | Page.noRequest err => ((none, some err), e)
      | _ => ((some { URL := some u }, none), e),
    Do := fun req e =>
      match req with
      | some { URL := some u } =>
        match site u with
        | Page.noResponse err => ((none, some err), e)
        | _ => ((some "", none), e)
      | _ => ((none, some (GoError.other "unable to send request")), e) }

/-- A scraper for a fixed site: the links of the page the request was made for. -/
def siteScraper (site : URL → Page) : Scraper Env :=
  { Scrape := fun req _ e =>
      match req with
      | some { URL := some u } =>
        match site u with
        | Page.noLinks err => (([], some err), e)
        | Page.links found => ((found.map some, none), e)
        | _ => (([], none), e)
      | _ => (([], none), e) }

/-- The crawler `New()` builds (default policy, in-memory store, printing logger), with
the network and the scraper standing for a fixed site. -/
def siteCrawler (site : URL → Page) : Crawler Env :=
  { requester := siteRequester site,
    enforcer := sameDomainOnceEnforcer,
    scraper := siteScraper site,
    storer := memoryStorer,
    logger := printLogger }

/-- The world before a crawl on a fresh crawler: empty store, no error, no goroutine. -/
def freshWorld (order : List Nat) : World Env :=
  { env := { store := Memory.New, order := order },
    calls := [], err := none, tasks := [], panicked := false }

/-- The URLs for which `Requester.Do` was called (the pages fetched), in order. -/
def fetched (calls : List Call) : List URL :=
  calls.filterMap (fun call =>
    match call with
    | Call.Do (some { URL := some u }) => some u
    | _ => none)

/-- The number of links of the page at `u`, 0 when the site gives no page. -/
def fanout (site : URL → Page) (u : URL) : Nat :=
  match site u with
  | Page.links found => found.length
  | _ => 0

/-- Two URLs are path-equivalent: equal paths after one trailing slash is removed. -/
def PathEquiv (a b : URL) : Prop := TrimSuffix a.Path "/" = TrimSuffix b.Path "/"

instance (a b : URL) : Decidable (PathEquiv a b) := by unfold PathEquiv; infer_instance

/-- The visited set has no two path-equivalent entries. -/
def PathDistinct (data : List URL) : Prop := data.Pairwise (fun a b => ¬ PathEquiv a b)

/-! ## Example URLs -/

/-- The URL `https://example.com/foo`. -/
def exFoo : URL := URL.simple "https" "example.com" "/foo"

/-- The URL `https://example.com/bar`. -/
def exBar : URL := URL.simple "https" "example.com" "/bar"

/-- The URL `http://example.com:8080/baz/`. -/
def exBaz : URL := URL.simple "http" "example.com:8080" "/baz/"

/-- The URL `http://example.com/bar/`. -/
def exBarSlash : URL := URL.simple "http" "example.com" "/bar/"

/-! ## The test doubles of `crawler_test.go` -/

/-- Go `mockRequester`. -/
def mockRequester (GivenRequestError GivenDoError : Option GoError)
    (GivenRequest : Option Request) (GivenReadCloser : Option String) : Requester Unit :=
  { Request := fun _ s => ((GivenRequest, GivenRequestError), s),
    Do := fun _ s => ((GivenReadCloser, GivenDoError), s) }

/-- Go `mockScraper`. -/
def mockScraper (GivenError : Option GoError) (GivenURLs : List (Option URL)) : Scraper Unit :=
  { Scrape := fun _ _ s => ((GivenURLs, GivenError), s) }

/-- Go `mockStorer`. -/
def mockStorer (GivenReadError GivenWriteError GivenNilError : Option GoError)
    (GivenStore : List URL) : Storer Unit :=
  { Read := fun s => ((GivenStore, GivenReadError), s),
    Write := fun u s =>
      match u with
      | none => (GivenNilError, s)
      | some _ => (GivenWriteError, s) }

/-- Go `mockLogger`. -/
def mockLogger : Logger Unit :=
  { Error := fun _ s => s,
    Info := fun _ found s => Ret.ok (found, s) }

/-- Go `mockEnforcer`. -/
def mockEnforcer (GivenBool : Bool) : Enforcer Unit :=
  { Enforce := fun _ _ s => (some GivenBool, s) }

/-- The crawler a case of `TestCrawler_Crawl_Fail` builds from its test doubles. -/
def mockCrawler (requester : Requester Unit) (scraper : Scraper Unit) (storer : Storer Unit)
    (enforcer : Enforcer Unit) : Crawler Unit :=
  { requester := requester, enforcer := enforcer, scraper := scraper, storer := storer,
    logger := mockLogger }

/-- The world in which a case of `TestCrawler_Crawl_Fail` calls `Crawl`. -/
def mockWorld : World Unit :=
  { env := (), calls := [], err := none, tasks := [], panicked := false }

/-- The URL `http://localhost` of the test cases. -/
def exLocalhost : URL := URL.simple "http" "localhost" ""

/-- The request `testRequest` of `TestCrawler_Crawl_Fail`. -/
def testRequest : Request := { URL := some exLocalhost }

/-! ## Counting the work of a crawl -/

/-- The steps a goroutine still needs: two for one that has to run `crawl` (the attempt,
and maybe the assignment of its error), one for one that has to assign its error. -/
def Task.weight : Task → Nat
  | Task.run _ => 2
  | Task.setErr _ => 1

/-- 1 for a goroutine that still has to run `crawl`, 0 for the others. -/
def Task.attempts : Task → Nat
  | Task.run _ => 1
  | Task.setErr _ => 0

/-- The links of the pages of `pages` that are not in the visited set: the goroutines
that admissions still to come can start. -/
def linksLeft (site : URL → Page) (pages visited : List URL) : Nat :=
  (pages.toFinset \ visited.toFinset).sum (fanout site)

/-- The number of scheduling steps after which a crawl of `site` from `seed` is over, when
all links of the site are in `known`. -/
def stepBound (site : URL → Page) (seed : URL) (known : List URL) : Nat :=
  2 + 2 * linksLeft site (seed :: known) []

/-- The world after `check` has admitted `u`. -/
def admittedWorld (u : URL) (w : World Env) : World Env :=
  { w with env := { store := (w.env.store.Write (some u)).1, order := w.env.order.tail.tail },
           calls := w.calls ++ [Call.Read, Call.Enforce w.env.store.data (some u),
                                Call.Write (some u)] }

/-- The number of attempts (calls of `crawl`, each of which starts with `Read`) made. -/
def attempts (calls : List Call) : Nat := calls.count Call.Read

/-- The steps still needed by the unfinished goroutines and by those that admissions
still to come can start. -/
def potential (site : URL → Page) (pages : List URL) (w : World Env) : Nat :=
  (w.tasks.map Task.weight).sum + 2 * linksLeft site pages w.env.store.data

/-- What holds of every world a crawl of `site` reaches, when every URL handed to `goCrawl`
is one of `pages`: no panic, every goroutine has a non-nil URL of `pages`, the store has no
two path-equivalent entries, the pages fetched are stored URLs in the order they were
stored, and attempts made, attempts pending and links left add up to a constant. -/
structure SiteInv (site : URL → Page) (pages : List URL) (w : World Env) : Prop where
  notPanicked : w.panicked = false
  tasksKnown : ∀ u, Task.run u ∈ w.tasks → ∃ v, u = some v ∧ v ∈ pages
  distinct : PathDistinct w.env.store.data
  fetchedStored : (fetched w.calls).Sublist w.env.store.data
  count : attempts w.calls + (w.tasks.map Task.attempts).sum
            + linksLeft site pages w.env.store.data = 1 + linksLeft site pages []

/-- A site of two pages that link to each other. -/
def cycleSite (a b : URL) : URL → Page := fun u =>
  if u = a then Page.links [b] else if u = b then Page.links [a] else Page.links []

/-- The calls of `Logger.Info` among `calls`, in order. -/
def infoCalls (calls : List Call) : List Call :=
  calls.filter (fun call =>
    match call with
    | Call.Info _ _ => true
    | _ => false)

/-! ## `scrape/html` -/

/-- Go `html.TokenType` of `golang.org/x/net/html`. -/
inductive TokenType where
  | ErrorToken
  | TextToken
  | StartTagToken
  | EndTagToken
  | SelfClosingTagToken
  | CommentToken
  | DoctypeToken
deriving DecidableEq, Repr

/-- Go `html.Attribute` of `golang.org/x/net/html`. -/
structure Attribute where
  Namespace : String
  Key : String
  Val : String
deriving DecidableEq, Repr

/-- Go `html.Token` of `golang.org/x/net/html`: what `z.Next()` and `z.Token()` give for
one token.  `Typ` is the field `Type`; the field `DataAtom` is not read by the scraper. -/
structure Token where
  Typ : TokenType
  Data : String
  Attr : List Attribute
deriving DecidableEq, Repr

namespace HTML

/-- The loop over `token.Attr` in Go `(*HTML).Scrape`: every `href` whose value
`url.Parse` accepts is resolved against `req.URL` and appended to `links`.  `Parse` is
`url.Parse` (`none` for an error) and `ResolveReference` is `(*URL).ResolveReference`. -/
def scanAttr (Parse : String → Option URL) (ResolveReference : URL → URL → URL) (base : URL) :
    List Attribute → List URL → List URL
  | [], links => links
  | attr :: rest, links =>
    if attr.Key != "href" then scanAttr Parse ResolveReference base rest links
    else
      match Parse attr.Val with
      | none => scanAttr Parse ResolveReference base rest links
      | some v => scanAttr Parse ResolveReference base rest (links ++ [ResolveReference base v])

/-- The `for` loop of Go `(*HTML).Scrape`.  The list holds what the successive calls of
`z.Next()` give; when it is used up the tokenizer has reached the end of the body and
gives `ErrorToken`.  A token of type `ErrorToken` in the list is a tokenizer that fails
before the end. -/
def scan (Parse : String → Option URL) (ResolveReference : URL → URL → URL) (base : URL) :
    List Token → List URL → List URL × Option GoError
  | [], links => (links, none)
  | token :: rest, links =>
    if token.Typ == TokenType.ErrorToken then (links, none)
    else if token.Typ == TokenType.StartTagToken then
      if token.Data != "a" then scan Parse ResolveReference base rest links
      else scan Parse ResolveReference base rest (scanAttr Parse ResolveReference base token.Attr links)
    else scan Parse ResolveReference base rest links

/-- Go `(*HTML).Scrape` for a request whose `URL` is `base` and a body that the tokenizer
reads as `tokens`; `links` starts as the nil slice. -/
def Scrape (Parse : String → Option URL) (ResolveReference : URL → URL → URL) (base : URL)
    (tokens : List Token) : List URL × Option GoError :=
  scan Parse ResolveReference base tokens []

/-- The links one token stands for, in the words of the specification: a start tag named
`a` gives, for each of its `href` attributes whose value parses, the value resolved
against the request URL; any other token gives nothing. -/
def tokenLinks (Parse : String → Option URL) (ResolveReference : URL → URL → URL) (base : URL)
    (token : Token) : List URL :=
  if token.Typ = TokenType.StartTagToken ∧ token.Data = "a" then
    token.Attr.filterMap (fun attr =>
      if attr.Key = "href" then (Parse attr.Val).map (ResolveReference base) else none)
  else []

/-- The links of a body in the words of the specification: those of its tokens, in
document order, up to the point where the tokenizer stops. -/
def specLinks (Parse : String → Option URL) (ResolveReference : URL → URL → URL) (base : URL)
    (tokens : List Token) : List URL :=
  ((tokens.takeWhile (fun token => token.Typ != TokenType.ErrorToken)).map
    (tokenLinks Parse ResolveReference base)).flatten

end HTML

/-- The start tag token of `<a href="...">`. -/
def exAnchor (href : String) : Token :=
  { Typ := TokenType.StartTagToken, Data := "a",
    Attr := [{ Namespace := "", Key := "href", Val := href }] }

/-- The end tag token of `</a>`. -/
def exAnchorEnd : Token :=
  { Typ := TokenType.EndTagToken, Data := "a", Attr := [] }

/-- The URL `https://example.com`. -/
def exBase : URL := URL.simple "https" "example.com" ""

/-- A stand-in for `url.Parse` in examples: it fails on `%` and reads anything else as a
path. -/
def exParse (rawURL : String) : Option URL :=
  if rawURL = "%" then none else some (URL.simple "" "" rawURL)

/-- A stand-in for `(*URL).ResolveReference` in examples: scheme and host of the base,
the rest of the reference. -/
def exResolveReference (base ref : URL) : URL :=
  { ref with Scheme := base.Scheme, Host := base.Host }

/-! ## `New` and its options -/

/-- Go `Option`: a function that modifies the crawler under construction. -/
abbrev CrawlerOption (σ : Type) : Type := Crawler σ → Crawler σ

/-- Go `WithEnforcer`. -/
def WithEnforcer {σ : Type} (enforcer : Enforcer σ) : CrawlerOption σ :=
  fun c => { c with enforcer := enforcer }

/-- Go `WithLogger`. -/
def WithLogger {σ : Type} (logger : Logger σ) : CrawlerOption σ :=
  fun c => { c with logger := logger }

/-- Go `WithRequester`. -/
def WithRequester {σ : Type} (requester : Requester σ) : CrawlerOption σ :=
  fun c => { c with requester := requester }

/-- Go `WithScraper`. -/
def WithScraper {σ : Type} (scraper : Scraper σ) : CrawlerOption σ :=
  fun c => { c with scraper := scraper }

/-- Go `WithStorer`. -/
def WithStorer {σ : Type} (storer : Storer σ) : CrawlerOption σ :=
  fun c => { c with storer := storer }

/-- Go `New`: the default crawler, then the options applied in order.  `getNew` and
`htmlNew` are the values of `get.New()` and `html.New()`, which talk to the network and
to the tokenizer; the other defaults are the policy, the store and the logger above. -/
def New (getNew : Requester Env) (htmlNew : Scraper Env) (options : List (CrawlerOption Env)) :
    Crawler Env :=
  options.foldl (fun c opt => opt c)
    { requester := getNew,
      enforcer := sameDomainOnceEnforcer,
      scraper := htmlNew,
      storer := memoryStorer,
      logger := printLogger }

/-- The calls of `Logger.Error` among `calls`, in order. -/
def errorCalls (calls : List Call) : List Call :=
  calls.filter (fun call =>
    match call with
    | Call.Error _ => true
    | _ => false)

/-- The crawler of the case "expect error given fatal requester error" of
`TestCrawler_Crawl_Fail`. -/
def requesterErrorCase : Crawler Unit :=
  mockCrawler (mockRequester (some GoError.ErrRequester) none none none) (mockScraper none [])
    (mockStorer none none none []) (mockEnforcer true)

/-- The URL `http://example.com:8080/a`. -/
def exPort8080 : URL := URL.simple "http" "example.com:8080" "/a"

/-- The URL `http://example.com:9090/b`. -/
def exPort9090 : URL := URL.simple "http" "example.com:9090" "/b"

/-- What holds of every world of a crawl from `seed` whose page links only to other
hostnames, once the seed has been admitted: no panic, no error, the seed is the only
stored URL, it is the only page fetched, and every goroutine left has to crawl a URL of
another hostname. -/
structure OnlySeedInv (seed : URL) (w : World Env) : Prop where
  notPanicked : w.panicked = false
  noErr : w.err = none
  store : w.env.store.data = [seed]
  fetchedSeed : fetched w.calls = [seed]
  tasksForeign : ∀ t ∈ w.tasks, ∃ v, t = Task.run (some v) ∧ v.Hostname ≠ seed.Hostname

/-- A site whose only page cannot be sent for. -/
def downSite : URL → Page := fun _ => Page.noResponse (GoError.other "unable to send request")

/-- A site whose page at `https://example.com/foo` links to `http://localhost` twice. -/
def foreignSite : URL → Page := fun u =>
  if u = exFoo then Page.links [exLocalhost, exLocalhost] else Page.links [exFoo]

/-- The visited set `{https://example.com/foo, http://localhost}`, of two hostnames. -/
def exMixed : List URL := [exFoo, exLocalhost]

/-- The URL `http://localhost/x`. -/
def exLocalhostX : URL := URL.simple "http" "localhost" "/x"

/-- The URL `ftp://example.com:21/bar/?q#f`: the scheme, port, query and fragment differ
from those of `https://example.com/bar`, the path by a trailing slash. -/
def exBarVariant : URL :=
  { URL.simple "ftp" "example.com:21" "/bar/" with RawQuery := "q", Fragment := "f" }

/-- All entries of the visited set have one hostname: what `getDomain` supposes when it
takes the hostname of whichever entry comes first. -/
def SameHostname (data : List URL) : Prop :=
  ∀ a ∈ data, ∀ b ∈ data, a.Hostname = b.Hostname

/-- A logger whose `Info` overwrites every element of the slice it is handed with nil. -/
def overwritingLogger : Logger Unit :=
  { Error := fun _ s => s,
    Info := fun _ found s => Ret.ok (found.map (fun _ => none), s) }

/-- The default crawler with a requester whose request has no URL (`&http.Request{}`) and
a scraper that finds nothing. -/
def nilURLCase : Crawler Env :=
  { requester :=
      { Request := fun _ e => ((some { URL := none }, none), e),
        Do := fun _ e => ((some "", none), e) },
    enforcer := sameDomainOnceEnforcer,
    scraper := { Scrape := fun _ _ e => (([], none), e) },
    storer := memoryStorer,
    logger := printLogger }

/-! ## Admissions in the call log -/

/-- The URLs `Storer.Write` was called with (the admissions written), in order. -/
def written (calls : List Call) : List URL :=
  calls.filterMap (fun call =>
    match call with
    | Call.Write (some u) => some u
    | _ => none)

/-- The URLs `Enforcer.Enforce` was asked about, in order: one entry for each attempt that
came to the decision. -/
def checked (calls : List Call) : List URL :=
  calls.filterMap (fun call =>
    match call with
    | Call.Enforce _ (some u) => some u
    | _ => none)

/-- What holds of every world of a crawl with the default policy and the in-memory
store: the store has no two path-equivalent entries and holds exactly the URLs `Write`
was called with, in the order of the calls. -/
structure WrittenInv (w : World Env) : Prop where
  distinct : PathDistinct w.env.store.data
  writtenStore : written w.calls = w.env.store.data

/-- A site whose page at `seed` links `n` times to `u`, every other page having no link:
the URL `u` is discovered by `n` branches at once. -/
def fanSite (seed u : URL) (n : Nat) : URL → Page := fun x =>
  if x = seed then Page.links (List.replicate n u) else Page.links []

/-- What holds of every world of a crawl of `fanSite seed u n` once the seed has been
admitted, for a `u` the policy can admit: every goroutine left has to crawl `u`; and
either none of the `n` has run and the store is the seed alone, or `u` was written once,
after the seed, and all that have run were checked. -/
structure FanInv (seed u : URL) (n : Nat) (w : World Env) : Prop where
  notPanicked : w.panicked = false
  noErr : w.err = none
  tasksU : ∀ t ∈ w.tasks, t = Task.run (some u)
  stage :
    (w.tasks.length = n ∧ w.env.store.data = [seed] ∧ written w.calls = [seed] ∧
        (checked w.calls).count u = 0) ∨
      (w.tasks.length < n ∧ w.env.store.data = [seed, u] ∧ written w.calls = [seed, u] ∧
        (checked w.calls).count u + w.tasks.length = n)

/-- The URL `https://example.com/foo?page=2`. -/
def exFooQuery : URL := { exFoo with RawQuery := "page=2" }

end crawler

/-! # Theorems -/

namespace crawler
open SameDomainOnce

/-! ## The default policy -/

theorem PathEquiv.symm {a b : URL} (h : PathEquiv a b) : PathEquiv b a := Eq.symm h

theorem getDomain_eq_none_iff (visited : List URL) (k : Nat) :
    getDomain visited k = none ↔ visited = [] := by
  unfold getDomain mapRange
  cases h : visited.rotate k with
  | nil => simpa [List.rotate_eq_nil_iff] using h
  | cons key rest =>
    have : visited ≠ [] := by
      intro hv; rw [hv] at h; simp at h
    simp [this]

theorem getDomain_some_mem {visited : List URL} {k : Nat} {d : String}
    (h : getDomain visited k = some d) : ∃ key ∈ visited, key.Hostname = d := by
  unfold getDomain mapRange at h
  cases hr : visited.rotate k with
  | nil => rw [hr] at h; simp at h
  | cons key rest =>
    rw [hr] at h
    simp only [Option.some.injEq] at h
    refine ⟨key, ?_, h⟩
    have : key ∈ visited.rotate k := by rw [hr]; simp
    exact List.mem_rotate.mp this

theorem isPathEqual_iff (visited : List URL) (k : Nat) (u : URL) :
    isPathEqual visited k u = true ↔ ∃ v ∈ visited, PathEquiv v u := by
  unfold isPathEqual mapRange PathEquiv
  simp [List.any_eq_true, List.mem_rotate]

theorem isVisited_iff (visited : List URL) (u : URL) :
    isVisited visited u = true ↔ u ∈ visited := by
  simp [isVisited]

/-- What `Enforce` computes, with no assumption on the visited set. -/
theorem Enforce_eq_true_iff (visited : List URL) (k k2 : Nat) (u : URL) :
    Enforce visited k k2 u = true ↔
      visited = [] ∨ (getDomain visited k = some u.Hostname ∧ ¬ ∃ v ∈ visited, PathEquiv v u) := by
  unfold Enforce
  cases hd : getDomain visited k with
  | none => simp [isNothingVisited, (getDomain_eq_none_iff visited k).mp hd]
  | some d =>
    have hne : visited ≠ [] := by
      intro hv
      have := (getDomain_eq_none_iff visited k).mpr hv
      rw [hd] at this; simp at this
    have hp := isPathEqual_iff visited k2 u
    have hv := isVisited_iff visited u
    by_cases h1 : d = u.Hostname
    · by_cases h2 : u ∈ visited
      · have : ∃ v ∈ visited, PathEquiv v u := ⟨u, h2, rfl⟩
        simp [isNothingVisited, isDomainEqual, h1, hv.mpr h2, hne, this]
      · by_cases h3 : ∃ v ∈ visited, PathEquiv v u
        · simp [isNothingVisited, isDomainEqual, h1, hp.mpr h3, hne, h3]
        · have h3b : isPathEqual visited k2 u = false := by
            cases hb : isPathEqual visited k2 u with
            | false => rfl
            | true => exact absurd (hp.mp hb) h3
          have h2b : isVisited visited u = false := by
            cases hb : isVisited visited u with
            | false => rfl
            | true => exact absurd (hv.mp hb) h2
          simp [isNothingVisited, isDomainEqual, h1, h2b, h3b, hne, h3]
    · simp [isNothingVisited, isDomainEqual, h1, hne]

/-- A candidate that is path-equivalent to a stored URL is rejected. -/
theorem Enforce_eq_false_of_pathEquiv {visited : List URL} (k k2 : Nat) {u v : URL}
    (hv : v ∈ visited) (hp : PathEquiv v u) : Enforce visited k k2 u = false := by
  cases h : Enforce visited k k2 u with
  | false => rfl
  | true =>
    rcases (Enforce_eq_true_iff visited k k2 u).mp h with h0 | ⟨_, h1⟩
    · rw [h0] at hv; simp at hv
    · exact absurd ⟨v, hv, hp⟩ h1

/-- C1. For a visited set whose entries share one hostname, whichever entries the two
loops of `Enforce` start at, `Enforce` answers true exactly when the set is empty, or the
candidate has the shared hostname and no stored URL has the candidate's path once one
trailing slash is removed from each; in every other case it answers false. -/
theorem C1_enforce_characterised (visited : List URL) (k k2 : Nat) (u : URL)
    (hsame : ∀ a ∈ visited, ∀ b ∈ visited, a.Hostname = b.Hostname) :
    (Enforce visited k k2 u = true ↔
      visited = [] ∨
        ((∀ v ∈ visited, u.Hostname = v.Hostname) ∧
          ∀ v ∈ visited, TrimSuffix v.Path "/" ≠ TrimSuffix u.Path "/")) ∧
    (Enforce visited k k2 u = false ↔
      ¬ (visited = [] ∨
        ((∀ v ∈ visited, u.Hostname = v.Hostname) ∧
          ∀ v ∈ visited, TrimSuffix v.Path "/" ≠ TrimSuffix u.Path "/"))) := by
  have key : Enforce visited k k2 u = true ↔
      visited = [] ∨
        ((∀ v ∈ visited, u.Hostname = v.Hostname) ∧
          ∀ v ∈ visited, TrimSuffix v.Path "/" ≠ TrimSuffix u.Path "/") := by
    rw [Enforce_eq_true_iff]
    constructor
    · rintro (h | ⟨hd, hp⟩)
      · exact Or.inl h
      · obtain ⟨key, hk, hkd⟩ := getDomain_some_mem hd
        refine Or.inr ⟨fun v hv => ?_, fun v hv hc => hp ⟨v, hv, hc⟩⟩
        rw [← hkd]; exact hsame key hk v hv
    · rintro (h | ⟨hh, hp⟩)
      · exact Or.inl h
      · by_cases hv : visited = []
        · exact Or.inl hv
        · refine Or.inr ⟨?_, fun ⟨v, hv, hc⟩ => hp v hv hc⟩
          cases hd : getDomain visited k with
          | none => exact absurd ((getDomain_eq_none_iff visited k).mp hd) hv
          | some d =>
            obtain ⟨key, hk, hkd⟩ := getDomain_some_mem hd
            rw [← hkd, hh key hk]
  refine ⟨key, ?_⟩
  rw [← key]
  cases Enforce visited k k2 u <;> simp

/-- C1 at the visited set `{/foo, /bar}` of `example.com`, the loops started at entries 1
and 0, and the candidate `http://example.com:8080/baz/`. -/
theorem C1_enforce_characterised_witness :
    (∀ a ∈ [exFoo, exBar], ∀ b ∈ [exFoo, exBar], a.Hostname = b.Hostname) ∧
    (Enforce [exFoo, exBar] 1 0 exBaz = true ↔
      [exFoo, exBar] = [] ∨
        ((∀ v ∈ [exFoo, exBar], exBaz.Hostname = v.Hostname) ∧
          ∀ v ∈ [exFoo, exBar], TrimSuffix v.Path "/" ≠ TrimSuffix exBaz.Path "/")) ∧
    (Enforce [exFoo, exBar] 1 0 exBaz = false ↔
      ¬ ([exFoo, exBar] = [] ∨
        ((∀ v ∈ [exFoo, exBar], exBaz.Hostname = v.Hostname) ∧
          ∀ v ∈ [exFoo, exBar], TrimSuffix v.Path "/" ≠ TrimSuffix exBaz.Path "/"))) :=
  ⟨by decide, C1_enforce_characterised [exFoo, exBar] 1 0 exBaz (by decide)⟩

/-- C2. In a visited set of any composition, whichever entries the loops start at, a
candidate that is a stored URL, or whose path equals a stored URL's path once one
trailing slash is removed from each, is rejected; and it stays rejected when its scheme,
query and fragment are replaced by any others. -/
theorem C2_enforce_rejects_equivalent (visited : List URL) (k k2 : Nat) (u : URL)
    (h : u ∈ visited ∨ ∃ v ∈ visited, TrimSuffix v.Path "/" = TrimSuffix u.Path "/") :
    visited ≠ [] ∧ Enforce visited k k2 u = false ∧
      ∀ (scheme query rawFragment fragment : String) (forceQuery : Bool),
        Enforce visited k k2
          { u with Scheme := scheme, RawQuery := query, ForceQuery := forceQuery,
                   Fragment := fragment, RawFragment := rawFragment } = false := by
  have hex : ∃ v ∈ visited, PathEquiv v u := by
    rcases h with h | h
    · exact ⟨u, h, rfl⟩
    · exact h
  obtain ⟨v, hv, hp⟩ := hex
  refine ⟨List.ne_nil_of_mem hv, Enforce_eq_false_of_pathEquiv k k2 hv hp, ?_⟩
  intro scheme query rawFragment fragment forceQuery
  exact Enforce_eq_false_of_pathEquiv k k2 hv hp

/-- C2 at the visited set `{https://example.com/foo, http://example.com:8080/baz/}` and
the candidate `https://example.com/baz`. -/
theorem C2_enforce_rejects_equivalent_witness :
    (URL.simple "https" "example.com" "/baz" ∈ [exFoo, exBaz] ∨
      ∃ v ∈ [exFoo, exBaz],
        TrimSuffix v.Path "/" = TrimSuffix (URL.simple "https" "example.com" "/baz").Path "/") ∧
    [exFoo, exBaz] ≠ [] ∧
    Enforce [exFoo, exBaz] 0 1 (URL.simple "https" "example.com" "/baz") = false ∧
      ∀ (scheme query rawFragment fragment : String) (forceQuery : Bool),
        Enforce [exFoo, exBaz] 0 1
          { URL.simple "https" "example.com" "/baz" with
              Scheme := scheme, RawQuery := query, ForceQuery := forceQuery,
              Fragment := fragment, RawFragment := rawFragment } = false :=
  ⟨Or.inr ⟨exBaz, by decide, by decide⟩,
    C2_enforce_rejects_equivalent [exFoo, exBaz] 0 1 (URL.simple "https" "example.com" "/baz")
      (Or.inr ⟨exBaz, by decide, by decide⟩)⟩

/-! ## Admission checks on the in-memory store -/

/-- `check` of a non-nil candidate with the in-memory store and the default policy. -/
theorem check_default_some (c : Crawler Env) (hs : c.storer = memoryStorer)
    (he : c.enforcer = sameDomainOnceEnforcer) (u : URL) (w : World Env) :
    check c (some u) w =
      if Enforce w.env.store.data (w.env.order.headD 0) (w.env.order.tail.headD 0) u = true then
        (Ret.ok (true, none),
          { w with env := { store := (w.env.store.Write (some u)).1, order := w.env.order.tail.tail },
                   calls := w.calls ++ [Call.Read, Call.Enforce w.env.store.data (some u),
                                        Call.Write (some u)] })
      else
        (Ret.ok (false, none),
          { w with env := { store := w.env.store, order := w.env.order.tail.tail },
                   calls := w.calls ++ [Call.Read, Call.Enforce w.env.store.data (some u)] }) := by
  unfold check
  simp only [hs, he, memoryStorer, sameDomainOnceEnforcer, Memory.Read, EnforcePtr]
  cases hE : Enforce w.env.store.data (w.env.order.headD 0) (w.env.order.tail.headD 0) u <;>
    simp [Memory.Write]

/-- `check` of a nil candidate never changes the in-memory store. -/
theorem check_default_none_store (c : Crawler Env) (hs : c.storer = memoryStorer)
    (he : c.enforcer = sameDomainOnceEnforcer) (w : World Env) :
    (check c none w).2.env.store = w.env.store := by
  unfold check
  simp only [hs, he, memoryStorer, sameDomainOnceEnforcer, Memory.Read, EnforcePtr]
  cases hd : isNothingVisited (getDomain w.env.store.data (w.env.order.headD 0)) <;>
    simp [Memory.Write]

/-- The store after `check`: unchanged, or the candidate was admitted and is appended. -/
theorem check_default_store (c : Crawler Env) (hs : c.storer = memoryStorer)
    (he : c.enforcer = sameDomainOnceEnforcer) (u : Option URL) (w : World Env) :
    (check c u w).2.env.store = w.env.store ∨
      ∃ url k k2, u = some url ∧ Enforce w.env.store.data k k2 url = true ∧
        (check c u w).2.env.store.data = w.env.store.data ++ [url] := by
  cases u with
  | none => exact Or.inl (check_default_none_store c hs he w)
  | some url =>
    rw [check_default_some c hs he url w]
    by_cases hE : Enforce w.env.store.data (w.env.order.headD 0) (w.env.order.tail.headD 0) url = true
    · right
      refine ⟨url, _, _, rfl, hE, ?_⟩
      have hnot : url ∉ w.env.store.data := by
        intro hmem
        have := Enforce_eq_false_of_pathEquiv (w.env.order.headD 0) (w.env.order.tail.headD 0)
          hmem (rfl : PathEquiv url url)
        rw [this] at hE; simp at hE
      rw [if_pos hE]
      simp [Memory.Write, hnot]
    · left
      rw [if_neg hE]

theorem check_default_mono (c : Crawler Env) (hs : c.storer = memoryStorer)
    (he : c.enforcer = sameDomainOnceEnforcer) (u : Option URL) (w : World Env) (x : URL)
    (hx : x ∈ w.env.store.data) : x ∈ (check c u w).2.env.store.data := by
  rcases check_default_store c hs he u w with h | ⟨url, k, k2, _, _, h⟩
  · rw [h]; exact hx
  · rw [h]; exact List.mem_append_left _ hx

theorem check_default_pathDistinct (c : Crawler Env) (hs : c.storer = memoryStorer)
    (he : c.enforcer = sameDomainOnceEnforcer) (u : Option URL) (w : World Env)
    (hw : PathDistinct w.env.store.data) : PathDistinct (check c u w).2.env.store.data := by
  rcases check_default_store c hs he u w with h | ⟨url, k, k2, _, hE, h⟩
  · rw [h]; exact hw
  · rw [h]
    unfold PathDistinct
    rw [List.pairwise_append]
    refine ⟨hw, List.pairwise_singleton _ _, ?_⟩
    intro a ha b hb hab
    rw [List.mem_singleton] at hb
    subst hb
    have := Enforce_eq_false_of_pathEquiv k k2 ha hab
    rw [this] at hE; simp at hE

theorem checkAll_default_mono (c : Crawler Env) (hs : c.storer = memoryStorer)
    (he : c.enforcer = sameDomainOnceEnforcer) (us : List (Option URL)) (w : World Env) (x : URL)
    (hx : x ∈ w.env.store.data) : x ∈ (checkAll c us w).env.store.data := by
  induction us generalizing w with
  | nil => exact hx
  | cons u rest ih =>
    have h1 := check_default_mono c hs he u w x hx
    unfold checkAll
    cases hc : check c u w with
    | mk r w1 =>
      rw [hc] at h1
      cases r with
      | panic => exact h1
      | ok a => exact ih w1 h1

theorem checkAll_default_pathDistinct (c : Crawler Env) (hs : c.storer = memoryStorer)
    (he : c.enforcer = sameDomainOnceEnforcer) (us : List (Option URL)) (w : World Env)
    (hw : PathDistinct w.env.store.data) : PathDistinct (checkAll c us w).env.store.data := by
  induction us generalizing w with
  | nil => exact hw
  | cons u rest ih =>
    have h1 := check_default_pathDistinct c hs he u w hw
    unfold checkAll
    cases hc : check c u w with
    | mk r w1 =>
      rw [hc] at h1
      cases r with
      | panic => exact h1
      | ok a => exact ih w1 h1

/-- A candidate that is path-equivalent to a stored URL is rejected by `check`, which then
leaves the store as it is and calls only `Read` and `Enforce`. -/
theorem check_default_rejects (c : Crawler Env) (hs : c.storer = memoryStorer)
    (he : c.enforcer = sameDomainOnceEnforcer) (w : World Env) (x v : URL)
    (hx : x ∈ w.env.store.data) (hp : PathEquiv x v) :
    (check c (some v) w).1 = Ret.ok (false, none) ∧
      (check c (some v) w).2.env.store = w.env.store ∧
      (check c (some v) w).2.calls =
        w.calls ++ [Call.Read, Call.Enforce w.env.store.data (some v)] := by
  have hE := Enforce_eq_false_of_pathEquiv (w.env.order.headD 0) (w.env.order.tail.headD 0) hx hp
  rw [check_default_some c hs he v w, hE]
  simp

/-- An admitted candidate is in the store afterwards. -/
theorem check_default_admitted_mem (c : Crawler Env) (hs : c.storer = memoryStorer)
    (he : c.enforcer = sameDomainOnceEnforcer) (w : World Env) (u : URL)
    (h : (check c (some u) w).1 = Ret.ok (true, none)) :
    u ∈ (check c (some u) w).2.env.store.data := by
  rw [check_default_some c hs he u w] at h ⊢
  by_cases hE : Enforce w.env.store.data (w.env.order.headD 0) (w.env.order.tail.headD 0) u = true
  · rw [if_pos hE]
    by_cases hm : u ∈ w.env.store.data <;> simp [Memory.Write, hm]
  · rw [if_neg hE] at h
    simp at h

/-- C3. With the in-memory store and the default policy, start from the empty store and
let admission checks run one after another, for any candidates (nil ones too) and any
starting entries of the map loops.  Then the store holds no two URLs whose paths are
equal once one trailing slash is removed; and if a check then admits `u` (returns true, no
error), then after any further checks the check of a `v` that is `u` or path-equivalent to
`u` returns false with no error, leaves the store as it is and calls no `Write`. -/
theorem C3_admitted_at_most_once (c : Crawler Env) (hs : c.storer = memoryStorer)
    (he : c.enforcer = sameDomainOnceEnforcer) (order : List Nat) (us : List (Option URL)) :
    (checkAll c us (freshWorld order)).env.store.data.Pairwise
        (fun a b => TrimSuffix a.Path "/" ≠ TrimSuffix b.Path "/") ∧
    ∀ (u v : URL) (later : List (Option URL)),
      (check c (some u) (checkAll c us (freshWorld order))).1 = Ret.ok (true, none) →
      (v = u ∨ TrimSuffix u.Path "/" = TrimSuffix v.Path "/") →
        (check c (some v)
            (checkAll c later (check c (some u) (checkAll c us (freshWorld order))).2)).1
          = Ret.ok (false, none) ∧
        (check c (some v)
            (checkAll c later (check c (some u) (checkAll c us (freshWorld order))).2)).2.env.store
          = (checkAll c later (check c (some u) (checkAll c us (freshWorld order))).2).env.store ∧
        (check c (some v)
            (checkAll c later (check c (some u) (checkAll c us (freshWorld order))).2)).2.calls
          = (checkAll c later (check c (some u) (checkAll c us (freshWorld order))).2).calls ++
              [Call.Read,
               Call.Enforce
                (checkAll c later
                  (check c (some u) (checkAll c us (freshWorld order))).2).env.store.data
                (some v)] := by
  refine ⟨?_, ?_⟩
  · exact checkAll_default_pathDistinct c hs he us (freshWorld order) List.Pairwise.nil
  · intro u v later hadm hv
    have hmem := check_default_admitted_mem c hs he _ u hadm
    have hmem2 := checkAll_default_mono c hs he later _ u hmem
    have hp : PathEquiv u v := by
      rcases hv with h | h
      · rw [h]; rfl
      · exact h
    exact check_default_rejects c hs he _ u v hmem2 hp

/-- C3 with the store `{/foo}`: `/bar` is admitted, then after a check of `/baz/` the
candidate `/bar/` is rejected. -/
theorem C3_admitted_at_most_once_witness :
    (check (siteCrawler (fun _ => Page.links [])) (some exBar)
        (checkAll (siteCrawler (fun _ => Page.links [])) [some exFoo] (freshWorld [1]))).1
      = Ret.ok (true, none) ∧
    (check (siteCrawler (fun _ => Page.links [])) (some exBarSlash)
        (checkAll (siteCrawler (fun _ => Page.links [])) [some exBaz]
          (check (siteCrawler (fun _ => Page.links [])) (some exBar)
            (checkAll (siteCrawler (fun _ => Page.links [])) [some exFoo] (freshWorld [1]))).2)).1
      = Ret.ok (false, none) :=
  ⟨by decide,
    ((C3_admitted_at_most_once (siteCrawler (fun _ => Page.links [])) rfl rfl [1]
        [some exFoo]).2 exBar exBarSlash [some exBaz] (by decide) (Or.inr (by decide))).1⟩


/-! ## A crawl of a site with the default policy and the in-memory store -/

/-- A callee that leaves the slice as it was. -/
theorem sliceAfter_self (urls : List (Option URL)) : sliceAfter urls urls = urls := by
  simp [sliceAfter]

theorem foldl_goCrawl {σ : Type} (urls : List (Option URL)) (w : World σ) :
    urls.foldl (fun acc foundURL => goCrawl foundURL acc) w =
      { w with tasks := w.tasks ++ urls.map Task.run } := by
  induction urls generalizing w with
  | nil => simp
  | cons u rest ih =>
    rw [List.foldl_cons, ih]
    simp [goCrawl]

/-- One attempt on a site, spelled out. -/
theorem crawl_site_some (site : URL → Page) (u : URL) (w : World Env) :
    crawl (siteCrawler site) (some u) w =
      if Enforce w.env.store.data (w.env.order.headD 0) (w.env.order.tail.headD 0) u = true then
        match site u with
        | Page.noRequest e =>
          (Ret.ok (some (Wrap GoError.ErrRequester e.Error)),
            { admittedWorld u w with calls := (admittedWorld u w).calls ++ [Call.Request u] })
        | Page.noResponse e =>
          (Ret.ok (some (Wrap GoError.ErrRequester e.Error)),
            { admittedWorld u w with
                calls := (admittedWorld u w).calls ++
                  [Call.Request u, Call.Do (some { URL := some u })] })
        | Page.noLinks e =>
          (Ret.ok (some (Wrap GoError.ErrScraper e.Error)),
            { admittedWorld u w with
                calls := (admittedWorld u w).calls ++
                  [Call.Request u, Call.Do (some { URL := some u }),
                   Call.Scrape (some { URL := some u }) (some "")] })
        | Page.links found =>
          (Ret.ok none,
            { admittedWorld u w with
                calls := (admittedWorld u w).calls ++
                  [Call.Request u, Call.Do (some { URL := some u }),
                   Call.Scrape (some { URL := some u }) (some ""),
                   Call.Info (some u) (found.map some)],
                tasks := w.tasks ++ found.map (fun v => Task.run (some v)) })
      else
        (Ret.ok none,
          { w with env := { store := w.env.store, order := w.env.order.tail.tail },
                   calls := w.calls ++ [Call.Read, Call.Enforce w.env.store.data (some u)] }) := by
  unfold crawl
  rw [check_default_some (siteCrawler site) rfl rfl u w]
  by_cases hE : Enforce w.env.store.data (w.env.order.headD 0) (w.env.order.tail.headD 0) u = true
  · rw [if_pos hE, if_pos hE]
    cases hs : site u <;>
      simp [siteCrawler, siteRequester, siteScraper, printLogger, hs, admittedWorld,
        foldl_goCrawl, Function.comp_def, sliceAfter_self]
  · rw [if_neg hE, if_neg hE]


theorem sum_map_eraseIdx {α : Type} (f : α → Nat) :
    ∀ (l : List α) (i : Nat) (t : α), l.get? i = some t →
      ((l.eraseIdx i).map f).sum + f t = (l.map f).sum
  | [], i, t, h => by simp at h
  | a :: l, 0, t, h => by
    simp only [List.get?_cons_zero, Option.some.injEq] at h
    subst h
    simp [Nat.add_comm]
  | a :: l, i + 1, t, h => by
    simp only [List.get?_cons_succ] at h
    have ih := sum_map_eraseIdx f l i t h
    simp only [List.eraseIdx_cons_succ, List.map_cons, List.sum_cons]
    omega

theorem linksLeft_admit (site : URL → Page) (pages data : List URL) (v : URL)
    (hv : v ∈ pages) (hnot : v ∉ data) :
    linksLeft site pages (data ++ [v]) + fanout site v = linksLeft site pages data := by
  unfold linksLeft
  have hmem : v ∈ pages.toFinset \ data.toFinset := by
    simp [hv, hnot]
  have heq : pages.toFinset \ (data ++ [v]).toFinset = (pages.toFinset \ data.toFinset).erase v := by
    ext x
    simp only [Finset.mem_sdiff, List.mem_toFinset, List.mem_append, List.mem_singleton,
      Finset.mem_erase]
    tauto
  rw [heq, Nat.add_comm]
  exact Finset.add_sum_erase _ _ hmem

theorem write_admitted {data : List URL} {k k2 : Nat} {v : URL}
    (hE : Enforce data k k2 v = true) :
    v ∉ data ∧ ((Memory.Write { data := data } (some v)).1.data = data ++ [v]) ∧
      (PathDistinct data → PathDistinct (data ++ [v])) := by
  have hnot : v ∉ data := by
    intro hmem
    have := Enforce_eq_false_of_pathEquiv k k2 hmem (rfl : PathEquiv v v)
    rw [this] at hE; simp at hE
  refine ⟨hnot, by simp [Memory.Write, hnot], ?_⟩
  intro hw
  unfold PathDistinct
  rw [List.pairwise_append]
  refine ⟨hw, List.pairwise_singleton _ _, ?_⟩
  intro a ha b hb hab
  rw [List.mem_singleton] at hb
  subst hb
  have := Enforce_eq_false_of_pathEquiv k k2 ha hab
  rw [this] at hE; simp at hE


theorem attempts_append (a b : List Call) : attempts (a ++ b) = attempts a + attempts b := by
  simp [attempts, List.count_append]

theorem fetched_append (a b : List Call) : fetched (a ++ b) = fetched a ++ fetched b := by
  simp [fetched, List.filterMap_append]

theorem sum_attempts_run (found : List URL) :
    ((found.map (fun v => Task.run (some v))).map Task.attempts).sum = found.length := by
  induction found with
  | nil => rfl
  | cons a rest ih => simp only [List.map_cons, List.sum_cons, ih, Task.attempts, List.length_cons]; omega

theorem sum_weight_run (found : List URL) :
    ((found.map (fun v => Task.run (some v))).map Task.weight).sum = 2 * found.length := by
  induction found with
  | nil => rfl
  | cons a rest ih => simp only [List.map_cons, List.sum_cons, ih, Task.weight, List.length_cons]; omega

/-- One scheduling step of a crawl of a site keeps the invariant and uses up potential. -/
theorem step_site (site : URL → Page) (pages : List URL)
    (hsite : ∀ u found, site u = Page.links found → ∀ v ∈ found, v ∈ pages)
    (k : Nat) (w : World Env) (hinv : SiteInv site pages w) (hne : w.tasks ≠ []) :
    SiteInv site pages (step (siteCrawler site) k w) ∧
      potential site pages (step (siteCrawler site) k w) < potential site pages w := by
  have hlen : 0 < w.tasks.length := List.length_pos.mpr hne
  have hi : k % w.tasks.length < w.tasks.length := Nat.mod_lt _ hlen
  obtain ⟨t, ht⟩ : ∃ t, w.tasks.get? (k % w.tasks.length) = some t :=
    ⟨_, List.get?_eq_get hi⟩
  have hmem : t ∈ w.tasks := List.get?_mem ht
  have hW := sum_map_eraseIdx Task.weight w.tasks _ t ht
  have hA := sum_map_eraseIdx Task.attempts w.tasks _ t ht
  have hsub : ∀ x, x ∈ w.tasks.eraseIdx (k % w.tasks.length) → x ∈ w.tasks :=
    fun x hx => List.mem_of_mem_eraseIdx hx
  have hcount := hinv.count
  unfold step
  rw [if_neg (by simp [hinv.notPanicked]), ht]
  cases t with
  | setErr e =>
    refine ⟨⟨hinv.notPanicked, fun u hu => hinv.tasksKnown u (hsub _ hu), hinv.distinct,
      hinv.fetchedStored, ?_⟩, ?_⟩
    · simp only [Task.attempts] at hA
      simp only
      omega
    · simp only [Task.weight] at hW
      simp only [potential]
      omega
  | run u =>
    obtain ⟨v, rfl, hv⟩ := hinv.tasksKnown u hmem
    simp only [Task.attempts, Task.weight] at hA hW
    simp only
    rw [crawl_site_some]
    by_cases hE : Enforce w.env.store.data (w.env.order.headD 0) (w.env.order.tail.headD 0) v = true
    · rw [if_pos hE]
      obtain ⟨hnot, hwr, hpd⟩ := write_admitted hE
      have hL := linksLeft_admit site pages w.env.store.data v hv hnot
      cases hs : site v with
      | noRequest e =>
        have hf : fanout site v = 0 := by simp [fanout, hs]
        refine ⟨⟨hinv.notPanicked, ?_, ?_, ?_, ?_⟩, ?_⟩
        · intro u hu
          simp only [admittedWorld, List.mem_append, List.mem_singleton] at hu
          rcases hu with hu | hu
          · exact hinv.tasksKnown u (hsub _ hu)
          · cases hu
        · simp only [admittedWorld, hwr]
          exact hpd hinv.distinct
        · simp only [admittedWorld, hwr, fetched_append]
          simpa [fetched] using List.Sublist.trans hinv.fetchedStored (List.sublist_append_left _ _)
        · have h1 : attempts [Call.Read, Call.Enforce w.env.store.data (some v),
              Call.Write (some v)] = 1 := by simp [attempts]
          have h2 : attempts [Call.Request v] = 0 := by simp [attempts]
          simp only [admittedWorld, hwr, attempts_append, List.map_append, List.sum_append,
            List.map_cons, List.map_nil, List.sum_cons, List.sum_nil, Task.attempts, h1, h2]
          omega
        · simp only [potential, admittedWorld, hwr, List.map_append, List.sum_append,
            List.map_cons, List.map_nil, List.sum_cons, List.sum_nil, Task.weight]
          omega
      | noResponse e =>
        have hf : fanout site v = 0 := by simp [fanout, hs]
        refine ⟨⟨hinv.notPanicked, ?_, ?_, ?_, ?_⟩, ?_⟩
        · intro u hu
          simp only [admittedWorld, List.mem_append, List.mem_singleton] at hu
          rcases hu with hu | hu
          · exact hinv.tasksKnown u (hsub _ hu)
          · cases hu
        · simp only [admittedWorld, hwr]
          exact hpd hinv.distinct
        · simp only [admittedWorld, hwr, fetched_append]
          simpa [fetched] using List.Sublist.append hinv.fetchedStored (List.Sublist.refl [v])
        · have h1 : attempts [Call.Read, Call.Enforce w.env.store.data (some v),
              Call.Write (some v)] = 1 := by simp [attempts]
          have h2 : attempts [Call.Request v, Call.Do (some { URL := some v })] = 0 := by
            simp [attempts]
          simp only [admittedWorld, hwr, attempts_append, List.map_append, List.sum_append,
            List.map_cons, List.map_nil, List.sum_cons, List.sum_nil, Task.attempts, h1, h2]
          omega
        · simp only [potential, admittedWorld, hwr, List.map_append, List.sum_append,
            List.map_cons, List.map_nil, List.sum_cons, List.sum_nil, Task.weight]
          omega
      | noLinks e =>
        have hf : fanout site v = 0 := by simp [fanout, hs]
        refine ⟨⟨hinv.notPanicked, ?_, ?_, ?_, ?_⟩, ?_⟩
        · intro u hu
          simp only [admittedWorld, List.mem_append, List.mem_singleton] at hu
          rcases hu with hu | hu
          · exact hinv.tasksKnown u (hsub _ hu)
          · cases hu
        · simp only [admittedWorld, hwr]
          exact hpd hinv.distinct
        · simp only [admittedWorld, hwr, fetched_append]
          simpa [fetched] using List.Sublist.append hinv.fetchedStored (List.Sublist.refl [v])
        · have h1 : attempts [Call.Read, Call.Enforce w.env.store.data (some v),
              Call.Write (some v)] = 1 := by simp [attempts]
          have h2 : attempts [Call.Request v, Call.Do (some { URL := some v }),
              Call.Scrape (some { URL := some v }) (some "")] = 0 := by
            simp [attempts]
          simp only [admittedWorld, hwr, attempts_append, List.map_append, List.sum_append,
            List.map_cons, List.map_nil, List.sum_cons, List.sum_nil, Task.attempts, h1, h2]
          omega
        · simp only [potential, admittedWorld, hwr, List.map_append, List.sum_append,
            List.map_cons, List.map_nil, List.sum_cons, List.sum_nil, Task.weight]
          omega
      | links found =>
        have hf : fanout site v = found.length := by simp [fanout, hs]
        refine ⟨⟨hinv.notPanicked, ?_, ?_, ?_, ?_⟩, ?_⟩
        · intro u hu
          simp only [List.mem_append, List.mem_map] at hu
          rcases hu with hu | ⟨x, hx, hxu⟩
          · exact hinv.tasksKnown u (hsub _ hu)
          · cases hxu
            exact ⟨x, rfl, hsite v found hs x hx⟩
        · simp only [admittedWorld, hwr]
          exact hpd hinv.distinct
        · simp only [admittedWorld, hwr, fetched_append]
          simpa [fetched] using List.Sublist.append hinv.fetchedStored (List.Sublist.refl [v])
        · have h1 : attempts [Call.Read, Call.Enforce w.env.store.data (some v),
              Call.Write (some v)] = 1 := by simp [attempts]
          have h2 : attempts [Call.Request v, Call.Do (some { URL := some v }),
              Call.Scrape (some { URL := some v }) (some ""),
              Call.Info (some v) (found.map some)] = 0 := by
            simp [attempts]
          simp only [admittedWorld, hwr, attempts_append, List.map_append, List.sum_append,
            sum_attempts_run, h1, h2]
          omega
        · simp only [potential, admittedWorld, hwr, List.map_append, List.sum_append,
            sum_weight_run]
          omega
    · rw [if_neg hE]
      refine ⟨⟨hinv.notPanicked, fun u hu => hinv.tasksKnown u (hsub _ hu), hinv.distinct, ?_, ?_⟩, ?_⟩
      · simp only [fetched_append]
        simpa [fetched] using hinv.fetchedStored
      · have h1 : attempts [Call.Read, Call.Enforce w.env.store.data (some v)] = 1 := by
          simp [attempts]
        simp only [attempts_append, h1]
        omega
      · simp only [potential]
        omega


theorem step_idle {σ : Type} (c : Crawler σ) (k : Nat) (w : World σ) (h : w.tasks = []) :
    step c k w = w := by
  unfold step
  split
  · rfl
  · simp [h]

theorem runSched_idle {σ : Type} (c : Crawler σ) (sched : List Nat) (w : World σ)
    (h : w.tasks = []) : runSched c sched w = w := by
  induction sched with
  | nil => rfl
  | cons k rest ih =>
    unfold runSched at ih ⊢
    rw [List.foldl_cons, step_idle c k w h]
    exact ih

theorem runSched_cons {σ : Type} (c : Crawler σ) (k : Nat) (rest : List Nat) (w : World σ) :
    runSched c (k :: rest) w = runSched c rest (step c k w) := rfl

theorem potential_tasks_nil (site : URL → Page) (pages : List URL) (w : World Env)
    (h : potential site pages w ≤ 2 * linksLeft site pages w.env.store.data) : w.tasks = [] := by
  cases hw : w.tasks with
  | nil => rfl
  | cons t rest =>
    unfold potential at h
    rw [hw] at h
    cases t <;> simp only [List.map_cons, List.sum_cons, Task.weight] at h <;> omega

/-- A schedule keeps the invariant, and one at least as long as the potential leaves no
goroutine. -/
theorem runSched_site (site : URL → Page) (pages : List URL)
    (hsite : ∀ u found, site u = Page.links found → ∀ v ∈ found, v ∈ pages)
    (sched : List Nat) (w : World Env) (hinv : SiteInv site pages w) :
    SiteInv site pages (runSched (siteCrawler site) sched w) ∧
      (potential site pages w ≤ sched.length →
        (runSched (siteCrawler site) sched w).tasks = []) := by
  induction sched generalizing w with
  | nil =>
    refine ⟨hinv, fun h => ?_⟩
    apply potential_tasks_nil site pages w
    simp only [List.length_nil] at h
    omega
  | cons k rest ih =>
    rw [runSched_cons]
    by_cases hne : w.tasks = []
    · rw [step_idle _ k w hne, runSched_idle _ rest w hne]
      exact ⟨hinv, fun _ => hne⟩
    · obtain ⟨hinv2, hlt⟩ := step_site site pages hsite k w hinv hne
      refine ⟨(ih _ hinv2).1, fun h => (ih _ hinv2).2 ?_⟩
      simp only [List.length_cons] at h
      omega

theorem siteInv_start (site : URL → Page) (seed : URL) (known : List URL) (order : List Nat) :
    SiteInv site (seed :: known) (goCrawl (some seed) (freshWorld order)) ∧
      potential site (seed :: known) (goCrawl (some seed) (freshWorld order))
        = stepBound site seed known := by
  refine ⟨⟨rfl, ?_, List.Pairwise.nil, ?_, ?_⟩, ?_⟩
  · intro u hu
    simp only [goCrawl, freshWorld, List.nil_append, List.mem_singleton, Task.run.injEq] at hu
    exact ⟨seed, hu, List.mem_cons_self _ _⟩
  · simp [goCrawl, freshWorld, fetched]
  · simp [goCrawl, freshWorld, attempts, Task.attempts, Memory.New]
  · simp [potential, goCrawl, freshWorld, Task.weight, stepBound, Memory.New]


/-- A step on a world whose only goroutine has to crawl `v`, when `v` is admitted and its
page has links. -/
theorem step_single_admit (site : URL → Page) (k : Nat) (w : World Env) (v : URL)
    (found : List URL) (hp : w.panicked = false) (ht : w.tasks = [Task.run (some v)])
    (hE : Enforce w.env.store.data (w.env.order.headD 0) (w.env.order.tail.headD 0) v = true)
    (hs : site v = Page.links found) :
    (step (siteCrawler site) k w).panicked = false ∧
    (step (siteCrawler site) k w).tasks = found.map (fun x => Task.run (some x)) ∧
    (step (siteCrawler site) k w).env.store.data = w.env.store.data ++ [v] ∧
    fetched (step (siteCrawler site) k w).calls = fetched w.calls ++ [v] ∧
    (step (siteCrawler site) k w).err = w.err := by
  obtain ⟨hnot, hwr, _⟩ := write_admitted hE
  unfold step
  rw [if_neg (by simp [hp])]
  simp only [ht, List.length_singleton, Nat.mod_one, List.get?_cons_zero, List.eraseIdx_cons_zero]
  rw [crawl_site_some, if_pos hE, hs]
  simp only [admittedWorld, hwr, fetched_append, List.nil_append]
  refine ⟨hp, trivial, trivial, ?_, trivial⟩
  simp [fetched]

/-- A step on a world whose only goroutine has to crawl `v`, when `v` is rejected. -/
theorem step_single_reject (site : URL → Page) (k : Nat) (w : World Env) (v : URL)
    (hp : w.panicked = false) (ht : w.tasks = [Task.run (some v)])
    (hE : Enforce w.env.store.data (w.env.order.headD 0) (w.env.order.tail.headD 0) v = false) :
    (step (siteCrawler site) k w).panicked = false ∧
    (step (siteCrawler site) k w).tasks = [] ∧
    (step (siteCrawler site) k w).env.store.data = w.env.store.data ∧
    fetched (step (siteCrawler site) k w).calls = fetched w.calls ∧
    (step (siteCrawler site) k w).err = w.err := by
  unfold step
  rw [if_neg (by simp [hp])]
  simp only [ht, List.length_singleton, Nat.mod_one, List.get?_cons_zero, List.eraseIdx_cons_zero]
  rw [crawl_site_some, if_neg (by rw [hE]; simp)]
  simp only [fetched_append]
  refine ⟨hp, trivial, trivial, ?_, trivial⟩
  simp [fetched]

/-- The crawl of two pages that link to each other, from the first: whatever the
schedule, after three steps both pages are fetched once and no goroutine is left. -/
theorem cycle_run (a b : URL) (hh : a.Hostname = b.Hostname) (hne : ¬ PathEquiv a b)
    (order : List Nat) (k1 k2 k3 : Nat) (rest : List Nat) :
    fetched (runSched (siteCrawler (cycleSite a b)) (k1 :: k2 :: k3 :: rest)
        (goCrawl (some a) (freshWorld order))).calls = [a, b] ∧
    (runSched (siteCrawler (cycleSite a b)) (k1 :: k2 :: k3 :: rest)
        (goCrawl (some a) (freshWorld order))).tasks = [] ∧
    (runSched (siteCrawler (cycleSite a b)) (k1 :: k2 :: k3 :: rest)
        (goCrawl (some a) (freshWorld order))).err = none ∧
    (runSched (siteCrawler (cycleSite a b)) (k1 :: k2 :: k3 :: rest)
        (goCrawl (some a) (freshWorld order))).panicked = false ∧
    (runSched (siteCrawler (cycleSite a b)) (k1 :: k2 :: k3 :: rest)
        (goCrawl (some a) (freshWorld order))).env.store.data = [a, b] := by
  have hab : b ≠ a := fun h => hne (by rw [h]; rfl)
  have hsa : cycleSite a b a = Page.links [b] := by simp [cycleSite]
  have hsb : cycleSite a b b = Page.links [a] := by simp [cycleSite, hab]
  -- first step: the seed is admitted into the empty store
  obtain ⟨p1, t1, d1, f1, e1⟩ :=
    step_single_admit (cycleSite a b) k1 (goCrawl (some a) (freshWorld order)) a [b] rfl rfl
      ((Enforce_eq_true_iff _ _ _ _).mpr (Or.inl rfl)) hsa
  -- second step: the second page is admitted
  have hE2 : Enforce [a] 
      ((step (siteCrawler (cycleSite a b)) k1 (goCrawl (some a) (freshWorld order))).env.order.headD 0)
      ((step (siteCrawler (cycleSite a b)) k1 (goCrawl (some a) (freshWorld order))).env.order.tail.headD 0)
      b = true := by
    rw [Enforce_eq_true_iff]
    refine Or.inr ⟨?_, ?_⟩
    · cases hd : getDomain [a] ((step (siteCrawler (cycleSite a b)) k1
          (goCrawl (some a) (freshWorld order))).env.order.headD 0) with
      | none => exact absurd ((getDomain_eq_none_iff _ _).mp hd) (by simp)
      | some d =>
        obtain ⟨key, hk, hkd⟩ := getDomain_some_mem hd
        rw [List.mem_singleton] at hk
        rw [← hkd, hk, hh]
    · rintro ⟨v, hv, hvb⟩
      rw [List.mem_singleton] at hv
      exact hne (hv ▸ hvb)
  have d1b : (step (siteCrawler (cycleSite a b)) k1
      (goCrawl (some a) (freshWorld order))).env.store.data = [a] := by
    rw [d1]; rfl
  rw [← d1b] at hE2
  obtain ⟨p2, t2, d2, f2, e2⟩ :=
    step_single_admit (cycleSite a b) k2 _ b [a] p1 t1 hE2 hsb
  -- third step: the seed is found again and rejected
  have hE3 := Enforce_eq_false_of_pathEquiv
    ((step (siteCrawler (cycleSite a b)) k2 (step (siteCrawler (cycleSite a b)) k1
      (goCrawl (some a) (freshWorld order)))).env.order.headD 0)
    ((step (siteCrawler (cycleSite a b)) k2 (step (siteCrawler (cycleSite a b)) k1
      (goCrawl (some a) (freshWorld order)))).env.order.tail.headD 0)
    (show a ∈ (step (siteCrawler (cycleSite a b)) k2 (step (siteCrawler (cycleSite a b)) k1
      (goCrawl (some a) (freshWorld order)))).env.store.data by rw [d2, d1b]; simp)
    (rfl : PathEquiv a a)
  obtain ⟨p3, t3, d3, f3, e3⟩ :=
    step_single_reject (cycleSite a b) k3 _ a p2 t2 hE3
  rw [runSched_cons, runSched_cons, runSched_cons, runSched_idle _ rest _ t3]
  refine ⟨?_, t3, ?_, p3, ?_⟩
  · rw [f3, f2, f1]; rfl
  · rw [e3, e2, e1]; rfl
  · rw [d3, d2, d1b]; rfl


theorem Crawl_some {σ : Type} (c : Crawler σ) (u : URL) (sched : List Nat) (w : World σ) :
    (Crawl c (some u) sched w).2 = runSched c sched (goCrawl (some u) w) ∧
    ((runSched c sched (goCrawl (some u) w)).panicked = false →
      (Crawl c (some u) sched w).1 ≠ Outcome.crashed ∧
      ((runSched c sched (goCrawl (some u) w)).tasks = [] →
        (Crawl c (some u) sched w).1 =
          Outcome.returned (runSched c sched (goCrawl (some u) w)).err)) := by
  unfold Crawl
  refine ⟨?_, ?_⟩
  · simp only
    split_ifs <;> rfl
  · intro hp
    simp only [hp]
    refine ⟨?_, ?_⟩
    · by_cases h0 : wgCount (runSched c sched (goCrawl (some u) w)) = 0 <;> simp [h0]
    · intro ht
      simp [wgCount, ht]

/-- C5, as stated, fails in its last sentence: a seed and a second page that link to each
other are not both visited when the policy does not admit the second.  With the seed
`https://example.com/foo` and the second page `https://example.com/foo?page=2` (same
path), and with the second page `http://localhost` (another hostname), the crawl ends
with no goroutine left and only the seed fetched. -/
theorem C5_counterexample :
    (cycleSite exFoo exFooQuery exFoo = Page.links [exFooQuery] ∧
      cycleSite exFoo exFooQuery exFooQuery = Page.links [exFoo] ∧
      (Crawl (siteCrawler (cycleSite exFoo exFooQuery)) (some exFoo) [0, 0, 0, 0, 0, 0]
          (freshWorld [])).1 = Outcome.returned none ∧
      (Crawl (siteCrawler (cycleSite exFoo exFooQuery)) (some exFoo) [0, 0, 0, 0, 0, 0]
          (freshWorld [])).2.tasks = [] ∧
      fetched (Crawl (siteCrawler (cycleSite exFoo exFooQuery)) (some exFoo) [0, 0, 0, 0, 0, 0]
          (freshWorld [])).2.calls = [exFoo]) ∧
    (cycleSite exFoo exLocalhost exFoo = Page.links [exLocalhost] ∧
      cycleSite exFoo exLocalhost exLocalhost = Page.links [exFoo] ∧
      (Crawl (siteCrawler (cycleSite exFoo exLocalhost)) (some exFoo) [0, 0, 0, 0, 0, 0]
          (freshWorld [])).2.tasks = [] ∧
      fetched (Crawl (siteCrawler (cycleSite exFoo exLocalhost)) (some exFoo) [0, 0, 0, 0, 0, 0]
          (freshWorld [])).2.calls = [exFoo]) := by
  refine ⟨⟨by decide, by decide, by decide, by decide, by decide⟩,
    ⟨by decide, by decide, by decide, by decide⟩⟩

/-- C5, amended. With the default policy and the in-memory store, take any seed and any
site all of whose links are in the finite list `known` (cycles and self-links allowed),
any starting entries of the map loops and any schedule of the goroutines.  Then the number
of attempts never exceeds one plus the number of links of the pages of the site; no two
fetches are for the same URL, nor for URLs with the same path up to one trailing slash;
the process does not panic; and once the schedule has `stepBound` steps no goroutine is
left and `Crawl` returns.  In particular, for a seed and a second page that link to each
other, when the second page has the seed's hostname and a path that differs from the
seed's once one trailing slash is removed, `Crawl` from the seed returns nil after three
steps and has fetched each of the two pages exactly once. -/
theorem C5_crawl_terminates (site : URL → Page) (seed : URL) (known : List URL)
    (order sched : List Nat)
    (hsite : ∀ u found, site u = Page.links found → ∀ v ∈ found, v ∈ known) :
    (attempts (Crawl (siteCrawler site) (some seed) sched (freshWorld order)).2.calls
        ≤ 1 + linksLeft site (seed :: known) [] ∧
      (fetched (Crawl (siteCrawler site) (some seed) sched (freshWorld order)).2.calls).Pairwise
        (fun a b => TrimSuffix a.Path "/" ≠ TrimSuffix b.Path "/") ∧
      (∀ u, (fetched (Crawl (siteCrawler site) (some seed) sched
          (freshWorld order)).2.calls).count u ≤ 1) ∧
      (Crawl (siteCrawler site) (some seed) sched (freshWorld order)).1 ≠ Outcome.crashed ∧
      (stepBound site seed known ≤ sched.length →
        (Crawl (siteCrawler site) (some seed) sched (freshWorld order)).2.tasks = [] ∧
        (Crawl (siteCrawler site) (some seed) sched (freshWorld order)).1 =
          Outcome.returned
            (Crawl (siteCrawler site) (some seed) sched (freshWorld order)).2.err)) ∧
    (∀ (a b : URL) (order2 sched2 : List Nat),
      a.Hostname = b.Hostname → TrimSuffix a.Path "/" ≠ TrimSuffix b.Path "/" →
      3 ≤ sched2.length →
        (Crawl (siteCrawler (cycleSite a b)) (some a) sched2 (freshWorld order2)).1
          = Outcome.returned none ∧
        fetched (Crawl (siteCrawler (cycleSite a b)) (some a) sched2 (freshWorld order2)).2.calls
          = [a, b] ∧
        (Crawl (siteCrawler (cycleSite a b)) (some a) sched2 (freshWorld order2)).2.tasks
          = []) := by
  refine ⟨?_, ?_⟩
  · have hsite2 : ∀ u found, site u = Page.links found → ∀ v ∈ found, v ∈ seed :: known :=
      fun u found h v hv => List.mem_cons_of_mem _ (hsite u found h v hv)
    obtain ⟨hstart, hpot⟩ := siteInv_start site seed known order
    obtain ⟨hinv, hterm⟩ := runSched_site site (seed :: known) hsite2 sched _ hstart
    obtain ⟨hw, hout⟩ := Crawl_some (siteCrawler site) seed sched (freshWorld order)
    rw [hw]
    have hpd : PathDistinct (fetched (runSched (siteCrawler site) sched
        (goCrawl (some seed) (freshWorld order))).calls) :=
      List.Pairwise.sublist hinv.fetchedStored hinv.distinct
    refine ⟨?_, hpd, ?_, (hout hinv.notPanicked).1, ?_⟩
    · have := hinv.count
      omega
    · have hnd : (fetched (runSched (siteCrawler site) sched
          (goCrawl (some seed) (freshWorld order))).calls).Nodup := by
        refine List.Pairwise.imp ?_ hpd
        intro x y hxy hEq
        exact hxy (by rw [hEq]; rfl)
      exact fun u => List.nodup_iff_count_le_one.mp hnd u
    · intro hlen
      have ht := hterm (by rw [hpot]; exact hlen)
      exact ⟨ht, (hout hinv.notPanicked).2 ht⟩
  · intro a b order2 sched2 hh hne hlen
    obtain ⟨k1, k2, k3, rest, rfl⟩ : ∃ k1 k2 k3 rest, sched2 = k1 :: k2 :: k3 :: rest := by
      match sched2, hlen with
      | k1 :: k2 :: k3 :: rest, _ => exact ⟨k1, k2, k3, rest, rfl⟩
    obtain ⟨hf, ht, he, hp, _⟩ := cycle_run a b hh hne order2 k1 k2 k3 rest
    obtain ⟨hw, hout⟩ := Crawl_some (siteCrawler (cycleSite a b)) a (k1 :: k2 :: k3 :: rest)
      (freshWorld order2)
    rw [hw]
    refine ⟨?_, hf, ht⟩
    rw [(hout hp).2 ht, he]


theorem cycleSite_known (a b : URL) :
    ∀ u found, cycleSite a b u = Page.links found → ∀ v ∈ found, v ∈ [a, b] := by
  intro u found h v hv
  unfold cycleSite at h
  split_ifs at h <;> cases h <;> simp at hv <;> simp [hv]

/-- C5, amended, on the site of `/foo` and `/bar` of `example.com`, which link to each
other: with six scheduling steps the crawl from `/foo` is over, `Crawl` returns nil and
has fetched `/foo` and `/bar`. -/
theorem C5_crawl_terminates_witness :
    (∀ u found, cycleSite exFoo exBar u = Page.links found → ∀ v ∈ found, v ∈ [exFoo, exBar]) ∧
    stepBound (cycleSite exFoo exBar) exFoo [exFoo, exBar] ≤ [5, 1, 2, 0, 7, 3].length ∧
    (Crawl (siteCrawler (cycleSite exFoo exBar)) (some exFoo) [5, 1, 2, 0, 7, 3]
        (freshWorld [1])).2.tasks = [] ∧
    (Crawl (siteCrawler (cycleSite exFoo exBar)) (some exFoo) [5, 1, 2, 0, 7, 3]
        (freshWorld [1])).1 = Outcome.returned none ∧
    fetched (Crawl (siteCrawler (cycleSite exFoo exBar)) (some exFoo) [5, 1, 2, 0, 7, 3]
        (freshWorld [1])).2.calls = [exFoo, exBar] :=
  ⟨cycleSite_known exFoo exBar,
    by decide,
    ((C5_crawl_terminates (cycleSite exFoo exBar) exFoo [exFoo, exBar] [1] [5, 1, 2, 0, 7, 3]
        (cycleSite_known exFoo exBar)).1.2.2.2.2 (by decide)).1,
    ((C5_crawl_terminates (cycleSite exFoo exBar) exFoo [exFoo, exBar] [1] [5, 1, 2, 0, 7, 3]
        (cycleSite_known exFoo exBar)).2 exFoo exBar [1] [5, 1, 2, 0, 7, 3]
        (by decide) (by decide) (by decide)).1,
    ((C5_crawl_terminates (cycleSite exFoo exBar) exFoo [exFoo, exBar] [1] [5, 1, 2, 0, 7, 3]
        (cycleSite_known exFoo exBar)).2 exFoo exBar [1] [5, 1, 2, 0, 7, 3]
        (by decide) (by decide) (by decide)).2.1⟩

/-! ## One attempt: `crawl` -/

/-- C6. `Crawl` with a nil URL returns `ErrInvalidURL` and the world is as before, whatever
the collaborators and the schedule: no collaborator was called, the collaborators' state
and `c.err` are untouched, and no goroutine was started. -/
theorem C6_crawl_nil {σ : Type} (c : Crawler σ) (sched : List Nat) (w : World σ) :
    Crawl c none sched w = (Outcome.returned (some GoError.ErrInvalidURL), w) ∧
    (Crawl c none sched w).2.calls = w.calls ∧
    (Crawl c none sched w).2.tasks = w.tasks :=
  ⟨rfl, rfl, rfl⟩

/-- C7. For a non-nil URL: if `Read` fails, the attempt returns an error with cause
`ErrStorer` after the single call `Read` (whatever the enforcer is); if `Read` succeeds,
the enforcer admits and `Write` fails, it returns an error with cause `ErrStorer` after
the calls `Read`, `Enforce`, `Write`.  In both cases the requester is not called and no
goroutine is started. -/
theorem C7_storer_failure {σ : Type} (c : Crawler σ) (u : URL) (w : World σ) :
    (∀ (m : List URL) (e : GoError) (s1 : σ),
      c.storer.Read w.env = ((m, some e), s1) →
        crawl c (some u) w =
          (Ret.ok (some (Wrap GoError.ErrStorer e.Error)),
            { w with env := s1, calls := w.calls ++ [Call.Read] }) ∧
        (Wrap GoError.ErrStorer e.Error).Cause = GoError.ErrStorer) ∧
    (∀ (m : List URL) (e : GoError) (s1 s2 s3 : σ),
      c.storer.Read w.env = ((m, none), s1) →
      c.enforcer.Enforce m (some u) s1 = (some true, s2) →
      c.storer.Write (some u) s2 = (some e, s3) →
        crawl c (some u) w =
          (Ret.ok (some (Wrap GoError.ErrStorer e.Error)),
            { w with env := s3,
                     calls := w.calls ++ [Call.Read, Call.Enforce m (some u), Call.Write (some u)] }) ∧
        (Wrap GoError.ErrStorer e.Error).Cause = GoError.ErrStorer) := by
  refine ⟨?_, ?_⟩
  · intro m e s1 h1
    refine ⟨?_, rfl⟩
    simp [crawl, check, h1]
  · intro m e s1 s2 s3 h1 h2 h3
    refine ⟨?_, rfl⟩
    simp [crawl, check, h1, h2, h3]

/-- C7 on the two storage cases of `TestCrawler_Crawl_Fail`. -/
theorem C7_storer_failure_witness :
    crawl (mockCrawler (mockRequester none none (some testRequest) none)
            (mockScraper none [some exLocalhost])
            (mockStorer (some GoError.ErrStorer) none none []) (mockEnforcer false))
        (some exLocalhost) mockWorld =
      (Ret.ok (some (Wrap GoError.ErrStorer "storage error")),
        { mockWorld with calls := [Call.Read] }) ∧
    crawl (mockCrawler (mockRequester none none (some testRequest) none) (mockScraper none [])
            (mockStorer none (some GoError.ErrStorer) none []) (mockEnforcer true))
        (some exLocalhost) mockWorld =
      (Ret.ok (some (Wrap GoError.ErrStorer "storage error")),
        { mockWorld with
            calls := [Call.Read, Call.Enforce [] (some exLocalhost), Call.Write (some exLocalhost)] }) :=
  ⟨((C7_storer_failure
        (mockCrawler (mockRequester none none (some testRequest) none)
          (mockScraper none [some exLocalhost])
          (mockStorer (some GoError.ErrStorer) none none []) (mockEnforcer false))
        exLocalhost mockWorld).1 [] GoError.ErrStorer () rfl).1,
    ((C7_storer_failure
        (mockCrawler (mockRequester none none (some testRequest) none) (mockScraper none [])
          (mockStorer none (some GoError.ErrStorer) none []) (mockEnforcer true))
        exLocalhost mockWorld).2 [] GoError.ErrStorer () () () rfl rfl rfl).1⟩

/-- C8. For a non-nil URL that `check` admits (`Read` succeeds, the enforcer admits,
`Write` succeeds): if `Request` fails, or `Request` succeeds and `Do` fails, the attempt
returns an error with cause `ErrRequester`.  The calls made are `Read`, `Enforce`,
`Write`, `Request` (and `Do`): no `Scrape`, no `Info`, no goroutine started, and no call
of the store after the `Write` that recorded the URL.  With the in-memory store and the
default policy, an attempt that ends in an error of cause `ErrRequester` leaves its URL in
the visited set. -/
theorem C8_requester_failure {σ : Type} (c : Crawler σ) (u : URL) (w : World σ)
    (m : List URL) (s1 s2 s3 : σ)
    (hread : c.storer.Read w.env = ((m, none), s1))
    (henf : c.enforcer.Enforce m (some u) s1 = (some true, s2))
    (hwrite : c.storer.Write (some u) s2 = (none, s3)) :
    (∀ (req : Option Request) (e : GoError) (s4 : σ),
      c.requester.Request u s3 = ((req, some e), s4) →
        crawl c (some u) w =
          (Ret.ok (some (Wrap GoError.ErrRequester e.Error)),
            { w with env := s4,
                     calls := w.calls ++ [Call.Read, Call.Enforce m (some u), Call.Write (some u),
                                          Call.Request u] }) ∧
        (Wrap GoError.ErrRequester e.Error).Cause = GoError.ErrRequester) ∧
    (∀ (req : Option Request) (resp : Option String) (e : GoError) (s4 s5 : σ),
      c.requester.Request u s3 = ((req, none), s4) →
      c.requester.Do req s4 = ((resp, some e), s5) →
        crawl c (some u) w =
          (Ret.ok (some (Wrap GoError.ErrRequester e.Error)),
            { w with env := s5,
                     calls := w.calls ++ [Call.Read, Call.Enforce m (some u), Call.Write (some u),
                                          Call.Request u, Call.Do req] }) ∧
        (Wrap GoError.ErrRequester e.Error).Cause = GoError.ErrRequester) ∧
    (∀ (site : URL → Page) (v : URL) (w2 : World Env) (e : GoError),
      (crawl (siteCrawler site) (some v) w2).1 = Ret.ok (some e) →
      e.Cause = GoError.ErrRequester →
        v ∈ (crawl (siteCrawler site) (some v) w2).2.env.store.data) := by
  refine ⟨?_, ?_, ?_⟩
  · intro req e s4 h4
    refine ⟨?_, rfl⟩
    simp [crawl, check, hread, henf, hwrite, h4]
  · intro req resp e s4 s5 h4 h5
    refine ⟨?_, rfl⟩
    simp [crawl, check, hread, henf, hwrite, h4, h5]
  · intro site v w2 e hres hcause
    rw [crawl_site_some] at hres ⊢
    by_cases hE : Enforce w2.env.store.data (w2.env.order.headD 0) (w2.env.order.tail.headD 0) v
        = true
    · rw [if_pos hE] at hres ⊢
      obtain ⟨_, hwr, _⟩ := write_admitted hE
      cases hs : site v with
      | noRequest e2 => simp [admittedWorld, hwr]
      | noResponse e2 => simp [admittedWorld, hwr]
      | noLinks e2 =>
        rw [hs] at hres
        simp only [Ret.ok.injEq, Option.some.injEq] at hres
        rw [← hres] at hcause
        simp [Wrap, GoError.Cause] at hcause
      | links found =>
        rw [hs] at hres
        simp at hres
    · rw [if_neg hE] at hres
      simp at hres

/-- C8 on the two requester cases of `TestCrawler_Crawl_Fail`. -/
theorem C8_requester_failure_witness :
    crawl (mockCrawler (mockRequester (some GoError.ErrRequester) none none none)
            (mockScraper none []) (mockStorer none none none []) (mockEnforcer true))
        (some exLocalhost) mockWorld =
      (Ret.ok (some (Wrap GoError.ErrRequester "requester error")),
        { mockWorld with
            calls := [Call.Read, Call.Enforce [] (some exLocalhost), Call.Write (some exLocalhost),
                      Call.Request exLocalhost] }) ∧
    crawl (mockCrawler (mockRequester none (some GoError.ErrRequester) (some testRequest) none)
            (mockScraper none []) (mockStorer none none none []) (mockEnforcer true))
        (some exLocalhost) mockWorld =
      (Ret.ok (some (Wrap GoError.ErrRequester "requester error")),
        { mockWorld with
            calls := [Call.Read, Call.Enforce [] (some exLocalhost), Call.Write (some exLocalhost),
                      Call.Request exLocalhost, Call.Do (some testRequest)] }) ∧
    (crawl (siteCrawler (fun _ => Page.noResponse (GoError.other "unable to send request")))
        (some exFoo) (freshWorld [])).1 =
      Ret.ok (some (Wrap GoError.ErrRequester "unable to send request")) ∧
    exFoo ∈ (crawl (siteCrawler (fun _ => Page.noResponse (GoError.other "unable to send request")))
        (some exFoo) (freshWorld [])).2.env.store.data :=
  ⟨((C8_requester_failure
        (mockCrawler (mockRequester (some GoError.ErrRequester) none none none)
          (mockScraper none []) (mockStorer none none none []) (mockEnforcer true))
        exLocalhost mockWorld [] () () () rfl rfl rfl).1 none GoError.ErrRequester () rfl).1,
    ((C8_requester_failure
        (mockCrawler (mockRequester none (some GoError.ErrRequester) (some testRequest) none)
          (mockScraper none []) (mockStorer none none none []) (mockEnforcer true))
        exLocalhost mockWorld [] () () () rfl rfl rfl).2.1 (some testRequest) none
          GoError.ErrRequester () () rfl rfl).1,
    by decide,
    (C8_requester_failure
        (mockCrawler (mockRequester none (some GoError.ErrRequester) (some testRequest) none)
          (mockScraper none []) (mockStorer none none none []) (mockEnforcer true))
        exLocalhost mockWorld [] () () () rfl rfl rfl).2.2
      (fun _ => Page.noResponse (GoError.other "unable to send request")) exFoo (freshWorld [])
      (Wrap GoError.ErrRequester "unable to send request") (by decide) rfl⟩

/-- C9. For a non-nil URL that `check` admits and whose `Request` and `Do` succeed: if
`Scrape` returns an error `e`, the attempt returns `ErrScraper` wrapped with the text of
`e`.  Its cause is `ErrScraper`, it matches `ErrScraper` and does not match `ErrRequester`
under `errors.Is`, whatever `e` is (`ErrRequester` too); after `Scrape` nothing is called
(no `Info`) and no goroutine is started. -/
theorem C9_scraper_failure {σ : Type} (c : Crawler σ) (u : URL) (w : World σ)
    (m : List URL) (s1 s2 s3 s4 s5 s6 : σ) (req : Option Request) (resp : Option String)
    (urls : List (Option URL)) (e : GoError)
    (hread : c.storer.Read w.env = ((m, none), s1))
    (henf : c.enforcer.Enforce m (some u) s1 = (some true, s2))
    (hwrite : c.storer.Write (some u) s2 = (none, s3))
    (hreq : c.requester.Request u s3 = ((req, none), s4))
    (hdo : c.requester.Do req s4 = ((resp, none), s5))
    (hscrape : c.scraper.Scrape req resp s5 = ((urls, some e), s6)) :
    crawl c (some u) w =
      (Ret.ok (some (Wrap GoError.ErrScraper e.Error)),
        { w with env := s6,
                 calls := w.calls ++ [Call.Read, Call.Enforce m (some u), Call.Write (some u),
                                      Call.Request u, Call.Do req, Call.Scrape req resp] }) ∧
    (Wrap GoError.ErrScraper e.Error).Cause = GoError.ErrScraper ∧
    (Wrap GoError.ErrScraper e.Error).Is GoError.ErrScraper = true ∧
    (Wrap GoError.ErrScraper e.Error).Is GoError.ErrRequester = false ∧
    (Wrap GoError.ErrScraper GoError.ErrRequester.Error).Is GoError.ErrRequester = false := by
  refine ⟨?_, rfl, ?_, ?_, ?_⟩
  · simp [crawl, check, hread, henf, hwrite, hreq, hdo, hscrape]
  · simp [Wrap, GoError.Is]
  · simp [Wrap, GoError.Is]
  · simp [Wrap, GoError.Is]

/-- C9 on the scraper case of `TestCrawler_Crawl_Fail`, where the scraper returns
`ErrRequester`. -/
theorem C9_scraper_failure_witness :
    crawl (mockCrawler (mockRequester none none (some testRequest) none)
            (mockScraper (some GoError.ErrRequester) []) (mockStorer none none none [])
            (mockEnforcer true))
        (some exLocalhost) mockWorld =
      (Ret.ok (some (Wrap GoError.ErrScraper "requester error")),
        { mockWorld with
            calls := [Call.Read, Call.Enforce [] (some exLocalhost), Call.Write (some exLocalhost),
                      Call.Request exLocalhost, Call.Do (some testRequest),
                      Call.Scrape (some testRequest) none] }) :=
  (C9_scraper_failure
    (mockCrawler (mockRequester none none (some testRequest) none)
      (mockScraper (some GoError.ErrRequester) []) (mockStorer none none none [])
      (mockEnforcer true))
    exLocalhost mockWorld [] () () () () () () (some testRequest) none [] GoError.ErrRequester
    rfl rfl rfl rfl rfl rfl).1

/-- C10. For a non-nil URL whose `Read` succeeds and which the enforcer rejects, the
attempt returns nil.  The only calls are `Read` and `Enforce`: nothing is written, the
requester, the scraper and the logger are not called, `c.err` is untouched and no
goroutine is started. -/
theorem C10_rejected {σ : Type} (c : Crawler σ) (u : URL) (w : World σ)
    (m : List URL) (s1 s2 : σ)
    (hread : c.storer.Read w.env = ((m, none), s1))
    (henf : c.enforcer.Enforce m (some u) s1 = (some false, s2)) :
    crawl c (some u) w =
      (Ret.ok none,
        { w with env := s2, calls := w.calls ++ [Call.Read, Call.Enforce m (some u)] }) ∧
    (crawl c (some u) w).2.tasks = w.tasks ∧
    (crawl c (some u) w).2.err = w.err := by
  have h : crawl c (some u) w =
      (Ret.ok none,
        { w with env := s2, calls := w.calls ++ [Call.Read, Call.Enforce m (some u)] }) := by
    simp [crawl, check, hread, henf]
  rw [h]
  exact ⟨rfl, rfl, rfl⟩

/-- C10 with the default policy and the in-memory store holding `/foo`: the candidate
`/foo` of another scheme is rejected and the store is as before. -/
theorem C10_rejected_witness :
    crawl (siteCrawler (fun _ => Page.links [exBar])) (some (URL.simple "http" "example.com" "/foo"))
        { freshWorld [] with env := { store := { data := [exFoo] }, order := [] } } =
      (Ret.ok none,
        { freshWorld [] with
            env := { store := { data := [exFoo] }, order := [] },
            calls := [Call.Read,
                      Call.Enforce [exFoo] (some (URL.simple "http" "example.com" "/foo"))] }) :=
  (C10_rejected (siteCrawler (fun _ => Page.links [exBar]))
    (URL.simple "http" "example.com" "/foo")
    { freshWorld [] with env := { store := { data := [exFoo] }, order := [] } }
    [exFoo] { store := { data := [exFoo] }, order := [] }
    { store := { data := [exFoo] }, order := [] } rfl (by decide)).1

/-! ## A successful attempt -/

/-- C11, as stated, fails, in three ways.  A logger whose `Info` overwrites the slice it
is handed changes the children: the scraper returns `[http://localhost]` and the
goroutine started is for nil, where the test logger gives one for `http://localhost`.
The default logger panics in `Info` when the URL of the request is nil, so the attempt
does not return nil.  And a requester that returns a nil request with a nil error makes
the attempt panic at `req.URL`, after `Scrape` and before `Info`. -/
theorem C11_counterexample :
    (crawl { mockCrawler (mockRequester none none (some testRequest) none)
                (mockScraper none [some exLocalhost]) (mockStorer none none none [])
                (mockEnforcer true) with logger := overwritingLogger }
        (some exLocalhost) mockWorld).2.tasks = [Task.run none] ∧
    (crawl (mockCrawler (mockRequester none none (some testRequest) none)
              (mockScraper none [some exLocalhost]) (mockStorer none none none [])
              (mockEnforcer true))
        (some exLocalhost) mockWorld).2.tasks = [Task.run (some exLocalhost)] ∧
    (crawl nilURLCase (some exFoo) (freshWorld [])).1 = Ret.panic ∧
    (crawl (mockCrawler (mockRequester none none none none) (mockScraper none [])
              (mockStorer none none none []) (mockEnforcer true))
        (some exLocalhost) mockWorld).1 = Ret.panic := by
  refine ⟨by decide, by decide, by decide, by decide⟩

/-- C11, amended. For a non-nil URL that `check` admits, whose `Request` returns a
request `r` with no error and whose `Do` and `Scrape` return no error, the attempt calls
`Info` once, after `Scrape`, with `r.URL` and the whole scraped list.  If `Info` returns,
the attempt returns nil and starts one goroutine per element of the slice as `Info` left
it, in order, duplicates included: as many as were scraped, and the scraped list itself
when `Info` did not write into it, whatever `Info` did to the state.  If `Info` panics,
the attempt panics and starts no goroutine. -/
theorem C11_attempt_succeeds {σ : Type} (c : Crawler σ) (u : URL) (w : World σ)
    (m : List URL) (s1 s2 s3 s4 s5 s6 : σ) (r : Request) (resp : Option String)
    (urls : List (Option URL))
    (hread : c.storer.Read w.env = ((m, none), s1))
    (henf : c.enforcer.Enforce m (some u) s1 = (some true, s2))
    (hwrite : c.storer.Write (some u) s2 = (none, s3))
    (hreq : c.requester.Request u s3 = ((some r, none), s4))
    (hdo : c.requester.Do (some r) s4 = ((resp, none), s5))
    (hscrape : c.scraper.Scrape (some r) resp s5 = ((urls, none), s6)) :
    (∀ (after : List (Option URL)) (s7 : σ),
      c.logger.Info r.URL urls s6 = Ret.ok (after, s7) →
        crawl c (some u) w =
          (Ret.ok none,
            { w with env := s7,
                     calls := w.calls ++ [Call.Read, Call.Enforce m (some u), Call.Write (some u),
                                          Call.Request u, Call.Do (some r),
                                          Call.Scrape (some r) resp, Call.Info r.URL urls],
                     tasks := w.tasks ++ (sliceAfter urls after).map Task.run }) ∧
        infoCalls (crawl c (some u) w).2.calls = infoCalls w.calls ++ [Call.Info r.URL urls] ∧
        (sliceAfter urls after).length = urls.length) ∧
    (∀ (s7 : σ), c.logger.Info r.URL urls s6 = Ret.ok (urls, s7) →
      (crawl c (some u) w).1 = Ret.ok none ∧
      (crawl c (some u) w).2.tasks = w.tasks ++ urls.map Task.run) ∧
    (c.logger.Info r.URL urls s6 = Ret.panic →
      crawl c (some u) w =
        (Ret.panic,
          { w with env := s6,
                   calls := w.calls ++ [Call.Read, Call.Enforce m (some u), Call.Write (some u),
                                        Call.Request u, Call.Do (some r),
                                        Call.Scrape (some r) resp, Call.Info r.URL urls] }) ∧
      infoCalls (crawl c (some u) w).2.calls = infoCalls w.calls ++ [Call.Info r.URL urls]) := by
  have key : ∀ (after : List (Option URL)) (s7 : σ),
      c.logger.Info r.URL urls s6 = Ret.ok (after, s7) →
        crawl c (some u) w =
          (Ret.ok none,
            { w with env := s7,
                     calls := w.calls ++ [Call.Read, Call.Enforce m (some u), Call.Write (some u),
                                          Call.Request u, Call.Do (some r),
                                          Call.Scrape (some r) resp, Call.Info r.URL urls],
                     tasks := w.tasks ++ (sliceAfter urls after).map Task.run }) := by
    intro after s7 hinfo
    simp [crawl, check, hread, henf, hwrite, hreq, hdo, hscrape, hinfo, foldl_goCrawl]
  refine ⟨?_, ?_, ?_⟩
  · intro after s7 hinfo
    refine ⟨key after s7 hinfo, ?_, ?_⟩
    · rw [key after s7 hinfo]
      simp [infoCalls, List.filter_append]
    · simp only [sliceAfter, List.length_append, List.length_take, List.length_drop]
      omega
  · intro s7 hinfo
    rw [key urls s7 hinfo, sliceAfter_self]
    exact ⟨rfl, rfl⟩
  · intro hinfo
    have hp : crawl c (some u) w =
        (Ret.panic,
          { w with env := s6,
                   calls := w.calls ++ [Call.Read, Call.Enforce m (some u), Call.Write (some u),
                                        Call.Request u, Call.Do (some r),
                                        Call.Scrape (some r) resp, Call.Info r.URL urls] }) := by
      simp [crawl, check, hread, henf, hwrite, hreq, hdo, hscrape, hinfo]
    refine ⟨hp, ?_⟩
    rw [hp]
    simp [infoCalls, List.filter_append]

/-- C11, amended, on test doubles: with the test logger the scraped list `[http://localhost,
nil, http://localhost]` gives three goroutines in that order; with the default logger and
a request whose URL is nil the attempt panics. -/
theorem C11_attempt_succeeds_witness :
    crawl (mockCrawler (mockRequester none none (some testRequest) none)
            (mockScraper none [some exLocalhost, none, some exLocalhost])
            (mockStorer none none none []) (mockEnforcer true))
        (some exLocalhost) mockWorld =
      (Ret.ok none,
        { mockWorld with
            calls := [Call.Read, Call.Enforce [] (some exLocalhost), Call.Write (some exLocalhost),
                      Call.Request exLocalhost, Call.Do (some testRequest),
                      Call.Scrape (some testRequest) none,
                      Call.Info (some exLocalhost) [some exLocalhost, none, some exLocalhost]],
            tasks := [Task.run (some exLocalhost), Task.run none, Task.run (some exLocalhost)] }) ∧
    (crawl nilURLCase (some exFoo) (freshWorld [])).1 = Ret.panic :=
  ⟨((C11_attempt_succeeds
      (mockCrawler (mockRequester none none (some testRequest) none)
        (mockScraper none [some exLocalhost, none, some exLocalhost])
        (mockStorer none none none []) (mockEnforcer true))
      exLocalhost mockWorld [] () () () () () () testRequest none
      [some exLocalhost, none, some exLocalhost] rfl rfl rfl rfl rfl rfl).1
        [some exLocalhost, none, some exLocalhost] () rfl).1,
    by
      rw [((C11_attempt_succeeds nilURLCase exFoo (freshWorld []) []
        { store := Memory.New, order := [] } { store := Memory.New, order := [] }
        { store := { data := [exFoo] }, order := [] } { store := { data := [exFoo] }, order := [] }
        { store := { data := [exFoo] }, order := [] } { store := { data := [exFoo] }, order := [] }
        { URL := none } (some "") [] rfl rfl rfl rfl rfl rfl).2.2 rfl).1]⟩

/-! ## The HTML scraper -/

theorem HTML.scanAttr_eq (Parse : String → Option URL) (ResolveReference : URL → URL → URL)
    (base : URL) (attrs : List Attribute) (links : List URL) :
    HTML.scanAttr Parse ResolveReference base attrs links =
      links ++ attrs.filterMap (fun attr =>
        if attr.Key = "href" then (Parse attr.Val).map (ResolveReference base) else none) := by
  induction attrs generalizing links with
  | nil => simp [HTML.scanAttr]
  | cons attr rest ih =>
    unfold HTML.scanAttr
    by_cases hk : attr.Key = "href"
    · cases hp : Parse attr.Val with
      | none => simp [hk, hp, ih]
      | some v => simp [hk, hp, ih]
    · simp [hk, ih]

theorem HTML.scan_eq (Parse : String → Option URL) (ResolveReference : URL → URL → URL)
    (base : URL) (tokens : List Token) (links : List URL) :
    HTML.scan Parse ResolveReference base tokens links =
      (links ++ HTML.specLinks Parse ResolveReference base tokens, none) := by
  induction tokens generalizing links with
  | nil => simp [HTML.scan, HTML.specLinks]
  | cons token rest ih =>
    unfold HTML.scan
    by_cases he : token.Typ = TokenType.ErrorToken
    · simp [he, HTML.specLinks]
    · by_cases hs : token.Typ = TokenType.StartTagToken
      · by_cases ha : token.Data = "a"
        · simp [he, hs, ha, ih, HTML.specLinks, HTML.tokenLinks, HTML.scanAttr_eq,
            List.takeWhile_cons]
        · simp [he, hs, ha, ih, HTML.specLinks, HTML.tokenLinks, List.takeWhile_cons]
      · simp [he, hs, ih, HTML.specLinks, HTML.tokenLinks, List.takeWhile_cons]

theorem HTML.specLinks_stop (Parse : String → Option URL) (ResolveReference : URL → URL → URL)
    (base : URL) (before : List Token) (failing : Token) (after : List Token)
    (hf : failing.Typ = TokenType.ErrorToken) :
    HTML.specLinks Parse ResolveReference base (before ++ failing :: after) =
      HTML.specLinks Parse ResolveReference base before := by
  unfold HTML.specLinks
  congr 2
  induction before with
  | nil => simp [List.takeWhile_cons, hf]
  | cons t rest ih =>
    by_cases ht : t.Typ = TokenType.ErrorToken
    · simp [List.takeWhile_cons, ht]
    · simp [List.takeWhile_cons, ht, ih]

/-- C12. The body being the list of its tokens, the HTML scraper returns the links of the
specification: in document order, for each start tag named `a` and each of its `href`
attributes whose value `url.Parse` accepts, that value resolved against the request URL,
and nothing for an `href` that does not parse, for other attributes and for other
tokens.  So with `%` refused by `url.Parse`, `<a href="%"></a>` followed by a valid
anchor gives only the valid link; and on the base `https://example.com`, `<a
href="/foo"></a>` gives exactly `https://example.com/foo`, that being what the library
resolves `/foo` to. -/
theorem C12_scrape_links (Parse : String → Option URL) (ResolveReference : URL → URL → URL)
    (base : URL) (tokens : List Token) :
    HTML.Scrape Parse ResolveReference base tokens =
      (HTML.specLinks Parse ResolveReference base tokens, none) ∧
    (∀ (href : String) (v : URL), Parse "%" = none → Parse href = some v →
      HTML.Scrape Parse ResolveReference base
          [exAnchor "%", exAnchorEnd, exAnchor href, exAnchorEnd] =
        ([ResolveReference base v], none)) ∧
    (∀ (ref : URL), Parse "/foo" = some ref →
      ResolveReference exBase ref = URL.simple "https" "example.com" "/foo" →
      HTML.Scrape Parse ResolveReference exBase [exAnchor "/foo", exAnchorEnd] =
        ([URL.simple "https" "example.com" "/foo"], none)) := by
  have key : ∀ (b : URL) (ts : List Token), HTML.Scrape Parse ResolveReference b ts =
      (HTML.specLinks Parse ResolveReference b ts, none) := by
    intro b ts
    unfold HTML.Scrape
    rw [HTML.scan_eq]
    simp
  refine ⟨key base tokens, ?_, ?_⟩
  · intro href v h1 h2
    rw [key]
    simp [HTML.specLinks, HTML.tokenLinks, exAnchor, exAnchorEnd, List.takeWhile_cons, h1, h2]
  · intro ref h1 h2
    rw [key]
    simp [HTML.specLinks, HTML.tokenLinks, exAnchor, exAnchorEnd, List.takeWhile_cons, h1, h2]

/-- C12 with stand-ins for the library functions, on the bodies of the two examples. -/
theorem C12_scrape_links_witness :
    exParse "%" = none ∧
    exParse "/foo" = some (URL.simple "" "" "/foo") ∧
    exResolveReference exBase (URL.simple "" "" "/foo") = URL.simple "https" "example.com" "/foo" ∧
    HTML.Scrape exParse exResolveReference exBase
        [exAnchor "%", exAnchorEnd, exAnchor "/bar", exAnchorEnd] =
      ([exResolveReference exBase (URL.simple "" "" "/bar")], none) ∧
    HTML.Scrape exParse exResolveReference exBase [exAnchor "/foo", exAnchorEnd] =
      ([URL.simple "https" "example.com" "/foo"], none) :=
  ⟨by decide, by decide, by decide,
    (C12_scrape_links exParse exResolveReference exBase []).2.1 "/bar" (URL.simple "" "" "/bar")
      (by decide) (by decide),
    (C12_scrape_links exParse exResolveReference exBase []).2.2 (URL.simple "" "" "/foo")
      (by decide) (by decide)⟩

/-- C13. For every request URL and every list of tokens the body is read as, the HTML
scraper returns a nil error: on the empty body (no token, no link), and when the
tokenizer gives `ErrorToken` before the end, where the result is the links of the tokens
before it, whatever follows. -/
theorem C13_scrape_never_fails (Parse : String → Option URL)
    (ResolveReference : URL → URL → URL) (base : URL) (tokens : List Token) :
    (HTML.Scrape Parse ResolveReference base tokens).2 = none ∧
    HTML.Scrape Parse ResolveReference base [] = ([], none) ∧
    (∀ (before after : List Token) (failing : Token),
      failing.Typ = TokenType.ErrorToken →
        HTML.Scrape Parse ResolveReference base (before ++ failing :: after) =
          (HTML.specLinks Parse ResolveReference base before, none) ∧
        HTML.Scrape Parse ResolveReference base (before ++ failing :: after) =
          HTML.Scrape Parse ResolveReference base before) := by
  have key : ∀ (ts : List Token), HTML.Scrape Parse ResolveReference base ts =
      (HTML.specLinks Parse ResolveReference base ts, none) := by
    intro ts
    unfold HTML.Scrape
    rw [HTML.scan_eq]
    simp
  refine ⟨by rw [key], rfl, ?_⟩
  intro before after failing hf
  rw [key, key, HTML.specLinks_stop Parse ResolveReference base before failing after hf]
  exact ⟨rfl, rfl⟩

/-- C13 on a body whose tokenizer fails after the first anchor. -/
theorem C13_scrape_never_fails_witness :
    HTML.Scrape exParse exResolveReference exBase
        ([exAnchor "/foo"] ++
          { Typ := TokenType.ErrorToken, Data := "", Attr := [] } :: [exAnchor "/bar"]) =
      ([URL.simple "https" "example.com" "/foo"], none) :=
  ((C13_scrape_never_fails exParse exResolveReference exBase []).2.2
      [exAnchor "/foo"] [exAnchor "/bar"] { Typ := TokenType.ErrorToken, Data := "", Attr := [] }
      rfl).1

/-! ## The error slot -/

/-- An attempt does not touch the error slot `c.err`. -/
theorem crawl_err {σ : Type} (c : Crawler σ) (u : Option URL) (w : World σ) :
    (crawl c u w).2.err = w.err := by
  rcases hr : c.storer.Read w.env with ⟨⟨visitedURLs, err⟩, s1⟩
  cases err with
  | some e => simp [crawl, check, hr]
  | none =>
    rcases he : c.enforcer.Enforce visitedURLs u s1 with ⟨ok, s2⟩
    cases ok with
    | none => simp [crawl, check, hr, he]
    | some b =>
      cases b with
      | false => simp [crawl, check, hr, he]
      | true =>
        rcases hw : c.storer.Write u s2 with ⟨writeErr, s3⟩
        cases writeErr with
        | some e => simp [crawl, check, hr, he, hw]
        | none =>
          cases u with
          | none => simp [crawl, check, hr, he, hw]
          | some url =>
            rcases h1 : c.requester.Request url s3 with ⟨⟨req, e1⟩, s4⟩
            cases e1 with
            | some e => simp [crawl, check, hr, he, hw, h1]
            | none =>
              rcases h2 : c.requester.Do req s4 with ⟨⟨resp, e2⟩, s5⟩
              cases e2 with
              | some e => simp [crawl, check, hr, he, hw, h1, h2]
              | none =>
                rcases h3 : c.scraper.Scrape req resp s5 with ⟨⟨urls, e3⟩, s6⟩
                cases e3 with
                | some e => simp [crawl, check, hr, he, hw, h1, h2, h3]
                | none =>
                  cases req with
                  | none => simp [crawl, check, hr, he, hw, h1, h2, h3]
                  | some r =>
                    cases h4 : c.logger.Info r.URL urls s6 with
                    | panic => simp [crawl, check, hr, he, hw, h1, h2, h3, h4]
                    | ok a => simp [crawl, check, hr, he, hw, h1, h2, h3, h4, foldl_goCrawl]

/-- The error slot is only ever assigned errors: once it holds one, it holds one after
every further step. -/
theorem step_err_ne_none {σ : Type} (c : Crawler σ) (k : Nat) (w : World σ)
    (h : w.err ≠ none) : (step c k w).err ≠ none := by
  unfold step
  split
  · exact h
  · split
    · exact h
    · simp
    · rename_i u _
      have hc := crawl_err c u { w with tasks := w.tasks.eraseIdx (k % w.tasks.length) }
      split <;> rename_i heq <;> rw [heq] at hc <;> simp only at hc ⊢ <;> rw [hc] <;> exact h

/-- The same for a whole schedule: a stored error is never replaced by nil. -/
theorem runSched_err_ne_none {σ : Type} (c : Crawler σ) (sched : List Nat) (w : World σ)
    (h : w.err ≠ none) : (runSched c sched w).err ≠ none := by
  induction sched generalizing w with
  | nil => exact h
  | cons k rest ih =>
    rw [runSched_cons]
    exact ih _ (step_err_ne_none c k w h)

/-- C14. The case "expect error given fatal requester error" of `TestCrawler_Crawl_Fail`:
the attempt on the seed returns an error, and `wg.Done()` has run by then.  If `Crawl`
reads `c.err` at that moment (schedule of one step), the goroutine has not yet assigned
its error: `Crawl` returns nil while the goroutine with the error is still unfinished.
If the goroutine runs on first (two steps), `Crawl` returns the error. -/
theorem C14_crawl_may_miss_the_error :
    (crawl requesterErrorCase (some exLocalhost) mockWorld).1 =
      Ret.ok (some (Wrap GoError.ErrRequester "requester error")) ∧
    (Crawl requesterErrorCase (some exLocalhost) [0] mockWorld).1 = Outcome.returned none ∧
    (Crawl requesterErrorCase (some exLocalhost) [0] mockWorld).2.tasks =
      [Task.setErr (Wrap GoError.ErrRequester "requester error")] ∧
    (Crawl requesterErrorCase (some exLocalhost) [0, 0] mockWorld).1 =
      Outcome.returned (some (Wrap GoError.ErrRequester "requester error")) := by
  refine ⟨by decide, by decide, by decide, by decide⟩

/-! ## Hosts, ports and the policy -/

/-- C17, as stated, fails: the visited set `{http://example.com:8080/a}` and the candidate
`http://example.com:9090/b` have different host components (the ports differ), and
`Enforce` admits the candidate. -/
theorem C17_counterexample :
    [exPort8080] ≠ [] ∧
    (∀ a ∈ [exPort8080], ∀ b ∈ [exPort8080], a.Host = b.Host) ∧
    (∀ v ∈ [exPort8080], exPort9090.Host ≠ v.Host) ∧
    Enforce [exPort8080] 0 0 exPort9090 = true := by
  decide

/-- C17, amended. For every non-empty visited set whose entries all have the same host
component and every candidate whose hostname (the host component without port and
brackets, as `Hostname()` gives it) differs from the hostname of the entries, `Enforce`
returns false, whichever entries its loops start at. -/
theorem C17_enforce_rejects_other_hostname (visited : List URL) (k k2 : Nat) (u : URL)
    (hne : visited ≠ [])
    (hsame : ∀ a ∈ visited, ∀ b ∈ visited, a.Host = b.Host)
    (hdiff : ∀ v ∈ visited, u.Hostname ≠ v.Hostname) :
    Enforce visited k k2 u = false ∧
    (∀ a ∈ visited, ∀ b ∈ visited, a.Hostname = b.Hostname) := by
  refine ⟨?_, ?_⟩
  · cases h : Enforce visited k k2 u with
    | false => rfl
    | true =>
      rcases (Enforce_eq_true_iff visited k k2 u).mp h with h0 | ⟨hd, _⟩
      · exact absurd h0 hne
      · obtain ⟨key, hk, hkd⟩ := getDomain_some_mem hd
        exact absurd hkd.symm (hdiff key hk)
  · intro a ha b hb
    unfold URL.Hostname
    rw [hsame a ha b hb]

/-- C17, amended, at the visited set `{https://example.com/foo, https://example.com/bar}`
and the candidate `http://localhost`. -/
theorem C17_enforce_rejects_other_hostname_witness :
    [exFoo, exBar] ≠ [] ∧
    (∀ a ∈ [exFoo, exBar], ∀ b ∈ [exFoo, exBar], a.Host = b.Host) ∧
    (∀ v ∈ [exFoo, exBar], exLocalhost.Hostname ≠ v.Hostname) ∧
    Enforce [exFoo, exBar] 1 0 exLocalhost = false :=
  ⟨by decide, by decide, by decide,
    (C17_enforce_rejects_other_hostname [exFoo, exBar] 1 0 exLocalhost (by decide) (by decide)
      (by decide)).1⟩

/-! ## The in-memory store -/

/-- C19. For the in-memory store: `Write` of a non-nil `u` returns no error and the set
afterwards is the set before with `u` added, so every entry stays, a `Read` that follows
has `u`, and nothing changes when `u` was there already; `Write(nil)` returns the
`ErrInvalidURL` of the package and leaves the set as it is. -/
theorem C19_memory_write (m : Memory) (u : URL) :
    (m.Write (some u)).2 = none ∧
    (∀ x, x ∈ (m.Write (some u)).1.data ↔ x ∈ m.data ∨ x = u) ∧
    (∀ x, x ∈ m.data → x ∈ (m.Write (some u)).1.data) ∧
    u ∈ ((m.Write (some u)).1.Read).1 ∧
    ((m.Write (some u)).1.Read).2 = none ∧
    (u ∈ m.data → (m.Write (some u)).1 = m) ∧
    (m.data.Nodup → (m.Write (some u)).1.data.Nodup) ∧
    m.Write none = (m, some GoError.MemoryErrInvalidURL) := by
  have hmem : ∀ x, x ∈ (m.Write (some u)).1.data ↔ x ∈ m.data ∨ x = u := by
    intro x
    by_cases h : u ∈ m.data
    · simp only [Memory.Write, h, if_true]
      constructor
      · exact fun hx => Or.inl hx
      · rintro (hx | hx)
        · exact hx
        · rw [hx]; exact h
    · simp [Memory.Write, h]
  refine ⟨rfl, hmem, fun x hx => (hmem x).mpr (Or.inl hx), ?_, rfl, ?_, ?_, rfl⟩
  · exact (hmem u).mpr (Or.inr rfl)
  · intro h
    simp [Memory.Write, h]
  · intro hnd
    by_cases h : u ∈ m.data
    · simp [Memory.Write, h, hnd]
    · simp only [Memory.Write, h, if_false]
      rw [List.nodup_append]
      refine ⟨hnd, List.nodup_singleton u, ?_⟩
      intro a ha hb
      rw [List.mem_singleton] at hb
      exact h (hb ▸ ha)

/-- C19 on the two writing cases of `TestMemory_Write`: into the empty set, and of a URL
that is stored already. -/
theorem C19_memory_write_witness :
    exLocalhost ∈ ((Memory.New.Write (some exLocalhost)).1.Read).1 ∧
    exLocalhost ∈ ({ data := [exLocalhost] } : Memory).data ∧
    (({ data := [exLocalhost] } : Memory).Write (some exLocalhost)).1 = { data := [exLocalhost] } :=
  ⟨(C19_memory_write Memory.New exLocalhost).2.2.2.1,
    by decide,
    (C19_memory_write { data := [exLocalhost] } exLocalhost).2.2.2.2.2.1 (by decide)⟩

/-! ## Options -/

theorem New_append (getNew : Requester Env) (htmlNew : Scraper Env)
    (options : List (CrawlerOption Env)) (opt : CrawlerOption Env) :
    New getNew htmlNew (options ++ [opt]) = opt (New getNew htmlNew options) := by
  simp [New, List.foldl_append]

/-- C20. `getNew` and `htmlNew` being what `get.New()` and `html.New()` return: for each of
the five options, `New` with that option alone gives a crawler with the given
collaborator in its place and the four others as `New()` has them; and an option given
after any others, the same option among them, decides its collaborator. -/
theorem C20_options (getNew : Requester Env) (htmlNew : Scraper Env) :
    (∀ x : Enforcer Env,
      New getNew htmlNew [WithEnforcer x] = { New getNew htmlNew [] with enforcer := x }) ∧
    (∀ x : Logger Env,
      New getNew htmlNew [WithLogger x] = { New getNew htmlNew [] with logger := x }) ∧
    (∀ x : Requester Env,
      New getNew htmlNew [WithRequester x] = { New getNew htmlNew [] with requester := x }) ∧
    (∀ x : Scraper Env,
      New getNew htmlNew [WithScraper x] = { New getNew htmlNew [] with scraper := x }) ∧
    (∀ x : Storer Env,
      New getNew htmlNew [WithStorer x] = { New getNew htmlNew [] with storer := x }) ∧
    New getNew htmlNew [] =
      { requester := getNew, enforcer := sameDomainOnceEnforcer, scraper := htmlNew,
        storer := memoryStorer, logger := printLogger } ∧
    (∀ (options : List (CrawlerOption Env)) (x y : Enforcer Env),
      (New getNew htmlNew (options ++ [WithEnforcer x])).enforcer = x ∧
      (New getNew htmlNew [WithEnforcer x, WithEnforcer y]).enforcer = y) ∧
    (∀ (options : List (CrawlerOption Env)) (x y : Logger Env),
      (New getNew htmlNew (options ++ [WithLogger x])).logger = x ∧
      (New getNew htmlNew [WithLogger x, WithLogger y]).logger = y) ∧
    (∀ (options : List (CrawlerOption Env)) (x y : Requester Env),
      (New getNew htmlNew (options ++ [WithRequester x])).requester = x ∧
      (New getNew htmlNew [WithRequester x, WithRequester y]).requester = y) ∧
    (∀ (options : List (CrawlerOption Env)) (x y : Scraper Env),
      (New getNew htmlNew (options ++ [WithScraper x])).scraper = x ∧
      (New getNew htmlNew [WithScraper x, WithScraper y]).scraper = y) ∧
    (∀ (options : List (CrawlerOption Env)) (x y : Storer Env),
      (New getNew htmlNew (options ++ [WithStorer x])).storer = x ∧
      (New getNew htmlNew [WithStorer x, WithStorer y]).storer = y) := by
  refine ⟨fun _ => rfl, fun _ => rfl, fun _ => rfl, fun _ => rfl, fun _ => rfl, rfl,
    ?_, ?_, ?_, ?_, ?_⟩ <;>
  · intro options x y
    refine ⟨?_, rfl⟩
    rw [New_append]
    rfl

/-! ## Failures and the logger -/

theorem errorCalls_append (a b : List Call) :
    errorCalls (a ++ b) = errorCalls a ++ errorCalls b := by
  simp [errorCalls, List.filter_append]

/-- `crawl` does not call `Logger.Error`. -/
theorem crawl_errorCalls {σ : Type} (c : Crawler σ) (u : Option URL) (w : World σ) :
    errorCalls (crawl c u w).2.calls = errorCalls w.calls := by
  rcases hr : c.storer.Read w.env with ⟨⟨visitedURLs, err⟩, s1⟩
  cases err with
  | some e => simp [crawl, check, hr, errorCalls_append, errorCalls]
  | none =>
    rcases he : c.enforcer.Enforce visitedURLs u s1 with ⟨ok, s2⟩
    cases ok with
    | none => simp [crawl, check, hr, he, errorCalls_append, errorCalls]
    | some b =>
      cases b with
      | false => simp [crawl, check, hr, he, errorCalls_append, errorCalls]
      | true =>
        rcases hw : c.storer.Write u s2 with ⟨writeErr, s3⟩
        cases writeErr with
        | some e => simp [crawl, check, hr, he, hw, errorCalls_append, errorCalls]
        | none =>
          cases u with
          | none => simp [crawl, check, hr, he, hw, errorCalls_append, errorCalls]
          | some url =>
            rcases h1 : c.requester.Request url s3 with ⟨⟨req, e1⟩, s4⟩
            cases e1 with
            | some e => simp [crawl, check, hr, he, hw, h1, errorCalls_append, errorCalls]
            | none =>
              rcases h2 : c.requester.Do req s4 with ⟨⟨resp, e2⟩, s5⟩
              cases e2 with
              | some e => simp [crawl, check, hr, he, hw, h1, h2, errorCalls_append, errorCalls]
              | none =>
                rcases h3 : c.scraper.Scrape req resp s5 with ⟨⟨urls, e3⟩, s6⟩
                cases e3 with
                | some e =>
                  simp [crawl, check, hr, he, hw, h1, h2, h3, errorCalls_append, errorCalls]
                | none =>
                  cases req with
                  | none =>
                    simp [crawl, check, hr, he, hw, h1, h2, h3, errorCalls_append, errorCalls]
                  | some r =>
                    cases h4 : c.logger.Info r.URL urls s6 with
                    | panic =>
                      simp [crawl, check, hr, he, hw, h1, h2, h3, h4, errorCalls_append,
                        errorCalls]
                    | ok a =>
                      simp [crawl, check, hr, he, hw, h1, h2, h3, h4, errorCalls_append,
                        errorCalls, foldl_goCrawl]

/-- `crawl` does not read the method `Error` of the logger. -/
theorem crawl_logger_error {σ : Type} (c : Crawler σ) (f : GoError → σ → σ) (u : Option URL)
    (w : World σ) :
    crawl { c with logger := { c.logger with Error := f } } u w = crawl c u w := rfl

theorem step_errorCalls {σ : Type} (c : Crawler σ) (k : Nat) (w : World σ) :
    errorCalls (step c k w).calls = errorCalls w.calls := by
  unfold step
  split
  · rfl
  · split
    · rfl
    · rfl
    · rename_i u _
      have h := crawl_errorCalls c u { w with tasks := w.tasks.eraseIdx (k % w.tasks.length) }
      split <;> rename_i hc <;> rw [hc] at h <;> exact h

theorem runSched_errorCalls {σ : Type} (c : Crawler σ) (sched : List Nat) (w : World σ) :
    errorCalls (runSched c sched w).calls = errorCalls w.calls := by
  induction sched generalizing w with
  | nil => rfl
  | cons k rest ih => rw [runSched_cons, ih, step_errorCalls]

/-- C18, as stated, fails: in the case "expect error given fatal requester error" of
`TestCrawler_Crawl_Fail` the attempt on the seed fails with a requester error, the crawl
runs until no goroutine is left, and `Logger.Error` has not been called, with that error
or with any other. -/
theorem C18_counterexample :
    (crawl requesterErrorCase (some exLocalhost) mockWorld).1 =
      Ret.ok (some (Wrap GoError.ErrRequester "requester error")) ∧
    (Crawl requesterErrorCase (some exLocalhost) [0, 0] mockWorld).2.tasks = [] ∧
    Call.Error (Wrap GoError.ErrRequester "requester error") ∉
      (Crawl requesterErrorCase (some exLocalhost) [0, 0] mockWorld).2.calls ∧
    errorCalls (Crawl requesterErrorCase (some exLocalhost) [0, 0] mockWorld).2.calls = [] := by
  refine ⟨by decide, by decide, by decide, by decide⟩

/-- C18, amended. The crawler never calls `Logger.Error`: an attempt, a scheduling step
and a whole `Crawl` add no such call, and an attempt is the same whatever the method
`Error` of the logger is.  An error that an attempt returns is delivered to the error
slot instead: the goroutine is left with the assignment of that error, and when it runs
on, `c.err` is that error. -/
theorem C18_errors_go_to_the_slot {σ : Type} (c : Crawler σ) (u : Option URL)
    (sched : List Nat) (k : Nat) (w : World σ) :
    errorCalls (crawl c u w).2.calls = errorCalls w.calls ∧
    errorCalls (step c k w).calls = errorCalls w.calls ∧
    errorCalls (Crawl c u sched w).2.calls = errorCalls w.calls ∧
    (∀ f : GoError → σ → σ,
      crawl { c with logger := { c.logger with Error := f } } u w = crawl c u w) ∧
    (∀ (e : GoError) (w2 : World σ), w.panicked = false →
      w.tasks.get? (k % w.tasks.length) = some (Task.run u) →
      crawl c u { w with tasks := w.tasks.eraseIdx (k % w.tasks.length) } = (Ret.ok (some e), w2) →
        step c k w = { w2 with tasks := w2.tasks ++ [Task.setErr e] }) ∧
    (∀ (e : GoError), w.panicked = false →
      w.tasks.get? (k % w.tasks.length) = some (Task.setErr e) →
        (step c k w).err = some e ∧
        (step c k w).tasks = w.tasks.eraseIdx (k % w.tasks.length)) := by
  refine ⟨crawl_errorCalls c u w, step_errorCalls c k w, ?_, fun _ => rfl, ?_, ?_⟩
  · cases u with
    | none => rfl
    | some url =>
      rw [(Crawl_some c url sched w).1, runSched_errorCalls]
      rfl
  · intro e w2 hp ht hc
    unfold step
    rw [if_neg (by simp [hp]), ht]
    simp only
    rw [hc]
  · intro e hp ht
    unfold step
    rw [if_neg (by simp [hp]), ht]
    exact ⟨rfl, rfl⟩

/-- C18, amended, on the case "expect error given fatal requester error" of
`TestCrawler_Crawl_Fail`: the first step leaves the goroutine with the assignment of the
requester error, the second step makes it. -/
theorem C18_errors_go_to_the_slot_witness :
    (step requesterErrorCase 0 (goCrawl (some exLocalhost) mockWorld)).tasks =
      [Task.setErr (Wrap GoError.ErrRequester "requester error")] ∧
    (step requesterErrorCase 0
        (step requesterErrorCase 0 (goCrawl (some exLocalhost) mockWorld))).err =
      some (Wrap GoError.ErrRequester "requester error") :=
  ⟨by
      rw [(C18_errors_go_to_the_slot requesterErrorCase (some exLocalhost) [] 0
        (goCrawl (some exLocalhost) mockWorld)).2.2.2.2.1
        (Wrap GoError.ErrRequester "requester error")
        (crawl requesterErrorCase (some exLocalhost) mockWorld).2 rfl rfl rfl]
      rfl,
    ((C18_errors_go_to_the_slot requesterErrorCase none [] 0
        (step requesterErrorCase 0 (goCrawl (some exLocalhost) mockWorld))).2.2.2.2.2
      (Wrap GoError.ErrRequester "requester error") rfl rfl).1⟩

/-! ## A seed with no link of its own hostname -/

/-- A candidate of another hostname than the only stored URL is rejected. -/
theorem Enforce_other_hostname (seed v : URL) (k k2 : Nat) (h : v.Hostname ≠ seed.Hostname) :
    Enforce [seed] k k2 v = false := by
  cases hE : Enforce [seed] k k2 v with
  | false => rfl
  | true =>
    rcases (Enforce_eq_true_iff [seed] k k2 v).mp hE with h0 | ⟨hd, _⟩
    · simp at h0
    · obtain ⟨key, hk, hkd⟩ := getDomain_some_mem hd
      rw [List.mem_singleton] at hk
      rw [hk] at hkd
      exact absurd hkd.symm h

theorem step_onlySeed (site : URL → Page) (seed : URL) (k : Nat) (w : World Env)
    (hinv : OnlySeedInv seed w) (hne : w.tasks ≠ []) :
    OnlySeedInv seed (step (siteCrawler site) k w) ∧
      (step (siteCrawler site) k w).tasks.length + 1 = w.tasks.length := by
  have hlen : 0 < w.tasks.length := List.length_pos.mpr hne
  have hi : k % w.tasks.length < w.tasks.length := Nat.mod_lt _ hlen
  obtain ⟨t, ht⟩ : ∃ t, w.tasks.get? (k % w.tasks.length) = some t :=
    ⟨_, List.get?_eq_get hi⟩
  obtain ⟨v, rfl, hv⟩ := hinv.tasksForeign t (List.get?_mem ht)
  have hE : Enforce w.env.store.data (w.env.order.headD 0) (w.env.order.tail.headD 0) v
      = false := by
    rw [hinv.store]
    exact Enforce_other_hostname seed v _ _ hv
  unfold step
  rw [if_neg (by simp [hinv.notPanicked]), ht]
  simp only
  rw [crawl_site_some, if_neg (by rw [hE]; simp)]
  refine ⟨⟨hinv.notPanicked, hinv.noErr, hinv.store, ?_, ?_⟩, ?_⟩
  · simp only [fetched_append]
    rw [hinv.fetchedSeed]
    simp [fetched]
  · intro t ht2
    exact hinv.tasksForeign t (List.mem_of_mem_eraseIdx ht2)
  · simp only [List.length_eraseIdx, hi, if_true]
    omega

theorem runSched_onlySeed (site : URL → Page) (seed : URL) (sched : List Nat) (w : World Env)
    (hinv : OnlySeedInv seed w) :
    OnlySeedInv seed (runSched (siteCrawler site) sched w) ∧
      (w.tasks.length ≤ sched.length → (runSched (siteCrawler site) sched w).tasks = []) := by
  induction sched generalizing w with
  | nil =>
    refine ⟨hinv, fun h => ?_⟩
    simp only [List.length_nil, Nat.le_zero] at h
    exact List.length_eq_zero.mp h
  | cons k rest ih =>
    rw [runSched_cons]
    by_cases hne : w.tasks = []
    · rw [step_idle _ k w hne, runSched_idle _ rest w hne]
      exact ⟨hinv, fun _ => hne⟩
    · obtain ⟨hinv2, hl⟩ := step_onlySeed site seed k w hinv hne
      refine ⟨(ih _ hinv2).1, fun h => (ih _ hinv2).2 ?_⟩
      simp only [List.length_cons] at h
      omega

/-- C15. With the default policy and the empty in-memory store, let the page of the seed
be scraped with no error and have no link, or only links whose hostname is not the
seed's.  Then for every schedule of the goroutines the process does not panic; whenever
`Crawl` returns, it returns nil and the visited set is exactly the seed; and it does
return once the schedule has one step for the seed and one for each link. -/
theorem C15_seed_only (site : URL → Page) (seed : URL) (found : List URL)
    (order sched : List Nat)
    (hseed : site seed = Page.links found)
    (hforeign : ∀ v ∈ found, v.Hostname ≠ seed.Hostname) :
    (Crawl (siteCrawler site) (some seed) sched (freshWorld order)).1 ≠ Outcome.crashed ∧
    (∀ e, (Crawl (siteCrawler site) (some seed) sched (freshWorld order)).1
        = Outcome.returned e →
      e = none ∧
      (Crawl (siteCrawler site) (some seed) sched (freshWorld order)).2.env.store.data = [seed] ∧
      fetched (Crawl (siteCrawler site) (some seed) sched (freshWorld order)).2.calls = [seed]) ∧
    (found.length + 1 ≤ sched.length →
      (Crawl (siteCrawler site) (some seed) sched (freshWorld order)).1
        = Outcome.returned none ∧
      (Crawl (siteCrawler site) (some seed) sched (freshWorld order)).2.env.store.data
        = [seed]) := by
  obtain ⟨hw, hout⟩ := Crawl_some (siteCrawler site) seed sched (freshWorld order)
  cases sched with
  | nil =>
    refine ⟨by simp [Crawl, runSched, goCrawl, freshWorld, wgCount], ?_, ?_⟩
    · intro e he
      simp [Crawl, runSched, goCrawl, freshWorld, wgCount] at he
    · intro h
      simp at h
  | cons k rest =>
    obtain ⟨p1, t1, d1, f1, e1⟩ :=
      step_single_admit site k (goCrawl (some seed) (freshWorld order)) seed found rfl rfl
        ((Enforce_eq_true_iff _ _ _ _).mpr (Or.inl rfl)) hseed
    have hinv1 : OnlySeedInv seed (step (siteCrawler site) k
        (goCrawl (some seed) (freshWorld order))) := by
      refine ⟨p1, by rw [e1]; rfl, by rw [d1]; rfl, by rw [f1]; rfl, ?_⟩
      intro t ht
      rw [t1, List.mem_map] at ht
      obtain ⟨v, hv, rfl⟩ := ht
      exact ⟨v, rfl, hforeign v hv⟩
    obtain ⟨hinv, hterm⟩ := runSched_onlySeed site seed rest _ hinv1
    rw [← runSched_cons] at hinv hterm
    have hret : ∀ e, (Crawl (siteCrawler site) (some seed) (k :: rest) (freshWorld order)).1
        = Outcome.returned e → e = none := by
      intro e he
      unfold Crawl at he
      simp only [hinv.notPanicked] at he
      by_cases h0 : wgCount (runSched (siteCrawler site) (k :: rest)
          (goCrawl (some seed) (freshWorld order))) = 0
      · simp only [h0, if_true, Bool.false_eq_true, if_false, Outcome.returned.injEq] at he
        rw [← he, hinv.noErr]
      · simp [h0] at he
    refine ⟨(hout hinv.notPanicked).1, ?_, ?_⟩
    · intro e he
      refine ⟨hret e he, ?_, ?_⟩
      · rw [hw]; exact hinv.store
      · rw [hw]; exact hinv.fetchedSeed
    · intro hlen
      have ht : (runSched (siteCrawler site) (k :: rest)
          (goCrawl (some seed) (freshWorld order))).tasks = [] := by
        apply hterm
        rw [t1, List.length_map]
        simp only [List.length_cons] at hlen
        omega
      refine ⟨?_, by rw [hw]; exact hinv.store⟩
      rw [(hout hinv.notPanicked).2 ht, hinv.noErr]

theorem foreignSite_links : foreignSite exFoo = Page.links [exLocalhost, exLocalhost] := by
  decide

/-- C15 on a seed `https://example.com/foo` whose page links to `http://localhost` twice. -/
theorem C15_seed_only_witness :
    foreignSite exFoo = Page.links [exLocalhost, exLocalhost] ∧
    (∀ v ∈ [exLocalhost, exLocalhost], v.Hostname ≠ exFoo.Hostname) ∧
    [exLocalhost, exLocalhost].length + 1 ≤ [1, 1, 0].length ∧
    (Crawl (siteCrawler foreignSite) (some exFoo) [1, 1, 0] (freshWorld [])).1
      = Outcome.returned none ∧
    (Crawl (siteCrawler foreignSite) (some exFoo) [1, 1, 0] (freshWorld [])).2.env.store.data
      = [exFoo] :=
  ⟨by decide, by decide, by decide,
    (C15_seed_only foreignSite exFoo [exLocalhost, exLocalhost] [] [1, 1, 0] foreignSite_links
      (by decide)).2.2 (by decide)⟩

/-! ## A second `Crawl` on the same crawler -/

/-- An attempt on a nil URL leaves the in-memory store as it is. -/
theorem crawl_site_none_store (site : URL → Page) (w : World Env) :
    (crawl (siteCrawler site) none w).2.env.store = w.env.store := by
  simp only [crawl, check, siteCrawler, memoryStorer, sameDomainOnceEnforcer, Memory.Read,
    EnforcePtr, Memory.Write]
  cases isNothingVisited (getDomain w.env.store.data (w.env.order.headD 0)) <;> simp

/-- An attempt removes nothing from the in-memory store. -/
theorem crawl_site_store_mono (site : URL → Page) (u : Option URL) (w : World Env) (x : URL)
    (hx : x ∈ w.env.store.data) : x ∈ (crawl (siteCrawler site) u w).2.env.store.data := by
  cases u with
  | none => rw [crawl_site_none_store]; exact hx
  | some v =>
    rw [crawl_site_some]
    by_cases hE : Enforce w.env.store.data (w.env.order.headD 0) (w.env.order.tail.headD 0) v
        = true
    · rw [if_pos hE]
      obtain ⟨_, hwr, _⟩ := write_admitted hE
      cases hs : site v <;> simp [admittedWorld, hwr, hx]
    · rw [if_neg hE]
      exact hx

theorem step_site_store_mono (site : URL → Page) (k : Nat) (w : World Env) (x : URL)
    (hx : x ∈ w.env.store.data) : x ∈ (step (siteCrawler site) k w).env.store.data := by
  unfold step
  split
  · exact hx
  · split
    · exact hx
    · exact hx
    · rename_i u _
      have h := crawl_site_store_mono site u
        { w with tasks := w.tasks.eraseIdx (k % w.tasks.length) } x hx
      split <;> rename_i hc <;> rw [hc] at h <;> exact h

theorem runSched_site_store_mono (site : URL → Page) (sched : List Nat) (w : World Env)
    (x : URL) (hx : x ∈ w.env.store.data) :
    x ∈ (runSched (siteCrawler site) sched w).env.store.data := by
  induction sched generalizing w with
  | nil => exact hx
  | cons k rest ih =>
    rw [runSched_cons]
    exact ih _ (step_site_store_mono site k w x hx)

/-- The first step of a crawl on a fresh crawler stores the seed. -/
theorem step_first_seed_mem (site : URL → Page) (seed : URL) (order : List Nat) (k : Nat) :
    seed ∈ (step (siteCrawler site) k (goCrawl (some seed) (freshWorld order))).env.store.data := by
  have hE : Enforce (goCrawl (some seed) (freshWorld order)).env.store.data
      ((goCrawl (some seed) (freshWorld order)).env.order.headD 0)
      ((goCrawl (some seed) (freshWorld order)).env.order.tail.headD 0) seed = true :=
    (Enforce_eq_true_iff _ _ _ _).mpr (Or.inl rfl)
  unfold step
  rw [if_neg (by simp [goCrawl, freshWorld])]
  have ht : (goCrawl (some seed) (freshWorld order)).tasks = [Task.run (some seed)] := rfl
  simp only [ht, List.length_singleton, Nat.mod_one, List.get?_cons_zero,
    List.eraseIdx_cons_zero]
  rw [crawl_site_some, if_pos hE]
  cases hs : site seed <;> simp [admittedWorld, Memory.Write, goCrawl, freshWorld, Memory.New]

theorem Crawl_returned {σ : Type} (c : Crawler σ) (u : URL) (sched : List Nat) (w : World σ)
    (e : Option GoError) (h : (Crawl c (some u) sched w).1 = Outcome.returned e) :
    (runSched c sched (goCrawl (some u) w)).panicked = false ∧
      e = (runSched c sched (goCrawl (some u) w)).err := by
  unfold Crawl at h
  simp only at h
  cases hp : (runSched c sched (goCrawl (some u) w)).panicked with
  | true => simp [hp] at h
  | false =>
    refine ⟨rfl, ?_⟩
    by_cases h0 : wgCount (runSched c sched (goCrawl (some u) w)) = 0
    · simp [hp, h0] at h
      exact h.symm
    · simp [hp, h0] at h

/-- C16, as stated, fails: on a site whose page cannot be sent for, `Crawl` of
`https://example.com/foo` on a fresh crawler runs until no goroutine is left and returns
a requester error; `Crawl` of the same URL again on that crawler admits nothing and
fetches nothing, but returns that error, not nil. -/
theorem C16_counterexample :
    (Crawl (siteCrawler downSite) (some exFoo) [0, 0] (freshWorld [])).2.tasks = [] ∧
    (Crawl (siteCrawler downSite) (some exFoo) [0]
        (Crawl (siteCrawler downSite) (some exFoo) [0, 0] (freshWorld [])).2).1
      = Outcome.returned (some (Wrap GoError.ErrRequester "unable to send request")) ∧
    (Crawl (siteCrawler downSite) (some exFoo) [0]
        (Crawl (siteCrawler downSite) (some exFoo) [0, 0] (freshWorld [])).2).1
      ≠ Outcome.returned none := by
  refine ⟨by decide, by decide, by decide⟩

/-- C16, amended. With the default policy and the in-memory store, let `Crawl(S)` on a
fresh crawler return `e` with no goroutine left.  Then `Crawl(S)` again on that crawler,
under any schedule that lets its goroutine run, makes one attempt, which is rejected
after `Read` and `Enforce`: the store is unchanged, nothing is fetched, no goroutine is
left, and the call returns `e` again, so it returns no error exactly when the first call
returned none. -/
theorem C16_second_crawl (site : URL → Page) (seed : URL) (order sched1 sched2 : List Nat)
    (e : Option GoError)
    (hret : (Crawl (siteCrawler site) (some seed) sched1 (freshWorld order)).1
      = Outcome.returned e)
    (hdone : (Crawl (siteCrawler site) (some seed) sched1 (freshWorld order)).2.tasks = [])
    (hsched : sched2 ≠ []) :
    (Crawl (siteCrawler site) (some seed) sched2
        (Crawl (siteCrawler site) (some seed) sched1 (freshWorld order)).2).1
      = Outcome.returned e ∧
    (Crawl (siteCrawler site) (some seed) sched2
        (Crawl (siteCrawler site) (some seed) sched1 (freshWorld order)).2).2.env.store
      = (Crawl (siteCrawler site) (some seed) sched1 (freshWorld order)).2.env.store ∧
    fetched (Crawl (siteCrawler site) (some seed) sched2
        (Crawl (siteCrawler site) (some seed) sched1 (freshWorld order)).2).2.calls
      = fetched (Crawl (siteCrawler site) (some seed) sched1 (freshWorld order)).2.calls ∧
    (Crawl (siteCrawler site) (some seed) sched2
        (Crawl (siteCrawler site) (some seed) sched1 (freshWorld order)).2).2.tasks = [] := by
  obtain ⟨hw1, _⟩ := Crawl_some (siteCrawler site) seed sched1 (freshWorld order)
  obtain ⟨hp, he⟩ := Crawl_returned (siteCrawler site) seed sched1 (freshWorld order) e hret
  rw [hw1] at hdone ⊢
  -- the world the first call leaves
  generalize hW : runSched (siteCrawler site) sched1 (goCrawl (some seed) (freshWorld order))
    = W at hp he hdone ⊢
  have hseed : seed ∈ W.env.store.data := by
    cases sched1 with
    | nil =>
      rw [← hW] at hdone
      simp [runSched, goCrawl] at hdone
    | cons k rest =>
      rw [← hW, runSched_cons]
      exact runSched_site_store_mono site rest _ seed (step_first_seed_mem site seed order k)
  -- the second call
  obtain ⟨k, rest, rfl⟩ : ∃ k rest, sched2 = k :: rest := by
    cases sched2 with
    | nil => exact absurd rfl hsched
    | cons k rest => exact ⟨k, rest, rfl⟩
  have ht : (goCrawl (some seed) W).tasks = [Task.run (some seed)] := by
    simp [goCrawl, hdone]
  have hE := Enforce_eq_false_of_pathEquiv
    ((goCrawl (some seed) W).env.order.headD 0) ((goCrawl (some seed) W).env.order.tail.headD 0)
    (show seed ∈ (goCrawl (some seed) W).env.store.data from hseed) (rfl : PathEquiv seed seed)
  obtain ⟨p3, t3, d3, f3, e3⟩ :=
    step_single_reject site k (goCrawl (some seed) W) seed hp ht hE
  obtain ⟨hw2, hout2⟩ := Crawl_some (siteCrawler site) seed (k :: rest) W
  have hrun : runSched (siteCrawler site) (k :: rest) (goCrawl (some seed) W) =
      step (siteCrawler site) k (goCrawl (some seed) W) := by
    rw [runSched_cons, runSched_idle _ rest _ t3]
  rw [hw2, hrun]
  rw [hrun] at hout2
  refine ⟨?_, ?_, ?_, t3⟩
  · rw [(hout2 p3).2 t3, e3, he]
    rfl
  · cases hst : (step (siteCrawler site) k (goCrawl (some seed) W)).env.store with
    | mk data =>
      rw [hst] at d3
      simp only at d3
      rw [d3]
      rfl
  · rw [f3]
    rfl

/-- C16, amended, on a site of two pages that link to each other: the first call returns
nil with no goroutine left, and so does the second. -/
theorem C16_second_crawl_witness :
    (Crawl (siteCrawler (cycleSite exFoo exBar)) (some exFoo) [0, 0, 0] (freshWorld [])).1
      = Outcome.returned none ∧
    (Crawl (siteCrawler (cycleSite exFoo exBar)) (some exFoo) [0, 0, 0] (freshWorld [])).2.tasks
      = [] ∧
    (Crawl (siteCrawler (cycleSite exFoo exBar)) (some exFoo) [3]
        (Crawl (siteCrawler (cycleSite exFoo exBar)) (some exFoo) [0, 0, 0]
          (freshWorld [])).2).1
      = Outcome.returned none :=
  ⟨by decide, by decide,
    (C16_second_crawl (cycleSite exFoo exBar) exFoo [] [0, 0, 0] [3] none (by decide)
      (by decide) (by decide)).1⟩

/-! ## What the policy looks at -/

/-- Every stored entry can be the one a `range` starts at. -/
theorem getDomain_any_entry (visited : List URL) (entry : URL) (h : entry ∈ visited) :
    ∃ k, getDomain visited k = some entry.Hostname := by
  obtain ⟨i, hi, hget⟩ := List.getElem_of_mem h
  refine ⟨i, ?_⟩
  unfold getDomain mapRange
  rw [List.rotate_eq_drop_append_take (Nat.le_of_lt hi), List.drop_eq_getElem_cons hi, hget]
  rfl

/-- C21. With the entry that gives the reference domain fixed (`k`), two candidates with
the same hostname and the same path up to one trailing slash get the same answer from
`Enforce`, whatever else differs between them (scheme, port, query, fragment) and
wherever the path loop starts; and a candidate that the identity check rejects is
rejected by the path check as well. -/
theorem C21_enforce_reads_hostname_and_path (visited : List URL) (k k2 k3 : Nat) (u v : URL)
    (hhost : u.Hostname = v.Hostname)
    (hpath : TrimSuffix u.Path "/" = TrimSuffix v.Path "/") :
    Enforce visited k k2 u = Enforce visited k k3 v ∧
    (isVisited visited u = true → isPathEqual visited k2 u = true) := by
  refine ⟨?_, ?_⟩
  · have hiff : Enforce visited k k2 u = true ↔ Enforce visited k k3 v = true := by
      rw [Enforce_eq_true_iff, Enforce_eq_true_iff, hhost]
      have hex : (∃ x ∈ visited, PathEquiv x u) ↔ (∃ x ∈ visited, PathEquiv x v) := by
        constructor
        · rintro ⟨x, hx, hxu⟩
          exact ⟨x, hx, hxu.trans hpath⟩
        · rintro ⟨x, hx, hxv⟩
          exact ⟨x, hx, hxv.trans hpath.symm⟩
      rw [hex]
    cases h1 : Enforce visited k k2 u <;> cases h2 : Enforce visited k k3 v <;> simp_all
  · intro h
    exact (isPathEqual_iff visited k2 u).mpr ⟨u, (isVisited_iff visited u).mp h, rfl⟩

/-- C21 on `https://example.com/bar` and `ftp://example.com:21/bar/?q#f` against the
visited set `{https://example.com/foo}`. -/
theorem C21_enforce_reads_hostname_and_path_witness :
    exBar.Hostname = exBarVariant.Hostname ∧
    TrimSuffix exBar.Path "/" = TrimSuffix exBarVariant.Path "/" ∧
    Enforce [exFoo] 0 0 exBar = Enforce [exFoo] 0 3 exBarVariant ∧
    Enforce [exFoo] 0 0 exBar = true :=
  ⟨by decide, by decide,
    (C21_enforce_reads_hostname_and_path [exFoo] 0 0 3 exBar exBarVariant (by decide)
      (by decide)).1,
    by decide⟩

/-! ## One hostname in the store -/

/-- Admission into a set of one hostname keeps it of one hostname. -/
theorem sameHostname_admit {data : List URL} {k k2 : Nat} {v : URL}
    (hs : SameHostname data) (hE : Enforce data k k2 v = true) :
    SameHostname (data ++ [v]) := by
  have hv : ∀ x ∈ data, x.Hostname = v.Hostname := by
    intro x hx
    rcases (Enforce_eq_true_iff data k k2 v).mp hE with h0 | ⟨hd, _⟩
    · rw [h0] at hx; simp at hx
    · obtain ⟨key, hk, hkd⟩ := getDomain_some_mem hd
      rw [← hkd]
      exact hs x hx key hk
  intro a ha b hb
  rw [List.mem_append, List.mem_singleton] at ha hb
  rcases ha with ha | ha <;> rcases hb with hb | hb
  · exact hs a ha b hb
  · rw [hb]; exact hv a ha
  · rw [ha]; exact (hv b hb).symm
  · rw [ha, hb]

theorem check_default_sameHostname (c : Crawler Env) (hs : c.storer = memoryStorer)
    (he : c.enforcer = sameDomainOnceEnforcer) (u : Option URL) (w : World Env)
    (hw : SameHostname w.env.store.data) : SameHostname (check c u w).2.env.store.data := by
  rcases check_default_store c hs he u w with h | ⟨url, k, k2, _, hE, h⟩
  · rw [h]; exact hw
  · rw [h]; exact sameHostname_admit hw hE

theorem checkAll_default_sameHostname (c : Crawler Env) (hs : c.storer = memoryStorer)
    (he : c.enforcer = sameDomainOnceEnforcer) (us : List (Option URL)) (w : World Env)
    (hw : SameHostname w.env.store.data) : SameHostname (checkAll c us w).env.store.data := by
  induction us generalizing w with
  | nil => exact hw
  | cons u rest ih =>
    have h1 := check_default_sameHostname c hs he u w hw
    unfold checkAll
    cases hc : check c u w with
    | mk r w1 =>
      rw [hc] at h1
      cases r with
      | panic => exact h1
      | ok a => exact ih w1 h1

/-- The store after an attempt on a site: as before, or the URL was admitted and added. -/
theorem crawl_site_store (site : URL → Page) (u : Option URL) (w : World Env) :
    (crawl (siteCrawler site) u w).2.env.store = w.env.store ∨
      ∃ v k k2, u = some v ∧ Enforce w.env.store.data k k2 v = true ∧
        (crawl (siteCrawler site) u w).2.env.store.data = w.env.store.data ++ [v] := by
  cases u with
  | none => exact Or.inl (crawl_site_none_store site w)
  | some v =>
    rw [crawl_site_some]
    by_cases hE : Enforce w.env.store.data (w.env.order.headD 0) (w.env.order.tail.headD 0) v
        = true
    · rw [if_pos hE]
      obtain ⟨_, hwr, _⟩ := write_admitted hE
      refine Or.inr ⟨v, _, _, rfl, hE, ?_⟩
      cases hs : site v <;> simp [admittedWorld, hwr]
    · rw [if_neg hE]
      exact Or.inl rfl

theorem step_site_sameHostname (site : URL → Page) (k : Nat) (w : World Env)
    (hw : SameHostname w.env.store.data) :
    SameHostname (step (siteCrawler site) k w).env.store.data := by
  unfold step
  split
  · exact hw
  · split
    · exact hw
    · exact hw
    · rename_i u _
      have h : SameHostname (crawl (siteCrawler site) u
          { w with tasks := w.tasks.eraseIdx (k % w.tasks.length) }).2.env.store.data := by
        rcases crawl_site_store site u { w with tasks := w.tasks.eraseIdx (k % w.tasks.length) }
          with h | ⟨v, k1, k2, _, hE, h⟩
        · rw [h]; exact hw
        · rw [h]; exact sameHostname_admit hw hE
      split <;> rename_i hc <;> rw [hc] at h <;> exact h

theorem runSched_site_sameHostname (site : URL → Page) (sched : List Nat) (w : World Env)
    (hw : SameHostname w.env.store.data) :
    SameHostname (runSched (siteCrawler site) sched w).env.store.data := by
  induction sched generalizing w with
  | nil => exact hw
  | cons k rest ih =>
    rw [runSched_cons]
    exact ih _ (step_site_sameHostname site k w hw)

/-- C22. With the in-memory store and the default policy: a check on a store whose URLs
share one hostname leaves a store whose URLs share one hostname; so after any sequence of
checks from the empty store all stored URLs have one hostname, that of the first
candidate when it is not nil (it is admitted into the empty store); and at every moment
of a crawl from a seed on a fresh crawler, under any schedule, every stored URL has the
hostname of the seed. -/
theorem C22_one_hostname (c : Crawler Env) (hs : c.storer = memoryStorer)
    (he : c.enforcer = sameDomainOnceEnforcer) (order : List Nat) (us : List (Option URL)) :
    (∀ (w : World Env) (u : Option URL),
      (∀ a ∈ w.env.store.data, ∀ b ∈ w.env.store.data, a.Hostname = b.Hostname) →
        ∀ a ∈ (check c u w).2.env.store.data, ∀ b ∈ (check c u w).2.env.store.data,
          a.Hostname = b.Hostname) ∧
    (∀ a ∈ (checkAll c us (freshWorld order)).env.store.data,
      ∀ b ∈ (checkAll c us (freshWorld order)).env.store.data, a.Hostname = b.Hostname) ∧
    (∀ (seed : URL) (rest : List (Option URL)), us = some seed :: rest →
      seed ∈ (checkAll c us (freshWorld order)).env.store.data ∧
      ∀ x ∈ (checkAll c us (freshWorld order)).env.store.data, x.Hostname = seed.Hostname) ∧
    (∀ (site : URL → Page) (seed : URL) (sched : List Nat),
      ∀ x ∈ (Crawl (siteCrawler site) (some seed) sched (freshWorld order)).2.env.store.data,
        x.Hostname = seed.Hostname) := by
  have hall : SameHostname (checkAll c us (freshWorld order)).env.store.data :=
    checkAll_default_sameHostname c hs he us (freshWorld order) (by intro a ha; simp [freshWorld, Memory.New] at ha)
  refine ⟨fun w u hw => check_default_sameHostname c hs he u w hw, hall, ?_, ?_⟩
  · intro seed rest hus
    have hmem : seed ∈ (checkAll c us (freshWorld order)).env.store.data := by
      rw [hus]
      have hE : Enforce (freshWorld order).env.store.data ((freshWorld order).env.order.headD 0)
          ((freshWorld order).env.order.tail.headD 0) seed = true :=
        (Enforce_eq_true_iff _ _ _ _).mpr (Or.inl rfl)
      have hadm : (check c (some seed) (freshWorld order)).1 = Ret.ok (true, none) := by
        rw [check_default_some c hs he seed (freshWorld order), if_pos hE]
      have h1 := check_default_admitted_mem c hs he (freshWorld order) seed hadm
      unfold checkAll
      cases hc : check c (some seed) (freshWorld order) with
      | mk r w1 =>
        rw [hc] at h1 hadm
        simp only at hadm
        rw [hadm]
        exact checkAll_default_mono c hs he rest w1 seed h1
    exact ⟨hmem, fun x hx => hall x hx seed hmem⟩
  · intro site seed sched x hx
    rw [(Crawl_some (siteCrawler site) seed sched (freshWorld order)).1] at hx
    have hsame : SameHostname (runSched (siteCrawler site) sched
        (goCrawl (some seed) (freshWorld order))).env.store.data :=
      runSched_site_sameHostname site sched _ (by intro a ha; simp [goCrawl, freshWorld, Memory.New] at ha)
    cases sched with
    | nil => simp [runSched, goCrawl, freshWorld, Memory.New] at hx
    | cons k rest =>
      have hseed : seed ∈ (runSched (siteCrawler site) (k :: rest)
          (goCrawl (some seed) (freshWorld order))).env.store.data := by
        rw [runSched_cons]
        exact runSched_site_store_mono site rest _ seed (step_first_seed_mem site seed order k)
      exact hsame x hx seed hseed

/-- C22 on the candidates `/foo` and `/bar` of `example.com` and `http://localhost`,
checked in that order from the empty store. -/
theorem C22_one_hostname_witness :
    (siteCrawler (fun _ => Page.links [])).storer = memoryStorer ∧
    (siteCrawler (fun _ => Page.links [])).enforcer = sameDomainOnceEnforcer ∧
    (checkAll (siteCrawler (fun _ => Page.links []))
        [some exFoo, some exBar, some exLocalhost] (freshWorld [1])).env.store.data
      = [exFoo, exBar] ∧
    ∀ x ∈ (checkAll (siteCrawler (fun _ => Page.links []))
        [some exFoo, some exBar, some exLocalhost] (freshWorld [1])).env.store.data,
      x.Hostname = exFoo.Hostname :=
  ⟨rfl, rfl, by decide,
    ((C22_one_hostname (siteCrawler (fun _ => Page.links [])) rfl rfl [1]
        [some exFoo, some exBar, some exLocalhost]).2.2.1 exFoo [some exBar, some exLocalhost]
      rfl).2⟩

/-! ## The entry that gives the reference domain -/

/-- On a set of one hostname, what `Enforce` answers does not mention where its loops
start. -/
theorem Enforce_sameHostname_iff (visited : List URL) (k k2 : Nat) (u : URL)
    (hsame : SameHostname visited) :
    Enforce visited k k2 u = true ↔
      visited = [] ∨
        ((∀ v ∈ visited, v.Hostname = u.Hostname) ∧ ¬ ∃ v ∈ visited, PathEquiv v u) := by
  rw [Enforce_eq_true_iff]
  constructor
  · rintro (h | ⟨hd, hp⟩)
    · exact Or.inl h
    · obtain ⟨key, hk, hkd⟩ := getDomain_some_mem hd
      exact Or.inr ⟨fun v hv => by rw [← hkd]; exact hsame v hv key hk, hp⟩
  · rintro (h | ⟨hh, hp⟩)
    · exact Or.inl h
    · by_cases hv : visited = []
      · exact Or.inl hv
      · refine Or.inr ⟨?_, hp⟩
        cases hd : getDomain visited k with
        | none => exact absurd ((getDomain_eq_none_iff visited k).mp hd) hv
        | some d =>
          obtain ⟨key, hk, hkd⟩ := getDomain_some_mem hd
          rw [← hkd, hh key hk]

/-- C23. On a visited set whose entries share one hostname, `Enforce` gives the same
answer whichever entries its loops start at, and every entry can be the one that gives
the reference domain.  On the set `{https://example.com/foo, http://localhost}`, of two
hostnames, the candidate `http://localhost/x` is admitted when `http://localhost` gives
the reference domain and rejected when `https://example.com/foo` does. -/
theorem C23_reference_entry (visited : List URL) (k j k2 j2 : Nat) (u : URL)
    (hsame : ∀ a ∈ visited, ∀ b ∈ visited, a.Hostname = b.Hostname) :
    Enforce visited k k2 u = Enforce visited j j2 u ∧
    (∀ entry ∈ visited, ∃ i, getDomain visited i = some entry.Hostname) ∧
    (exFoo ∈ exMixed ∧ exLocalhost ∈ exMixed ∧ exFoo.Hostname ≠ exLocalhost.Hostname ∧
      getDomain exMixed 1 = some exLocalhost.Hostname ∧
      Enforce exMixed 1 0 exLocalhostX = true ∧
      getDomain exMixed 0 = some exFoo.Hostname ∧
      Enforce exMixed 0 0 exLocalhostX = false) := by
  refine ⟨?_, fun entry h => getDomain_any_entry visited entry h, by decide⟩
  have hiff : Enforce visited k k2 u = true ↔ Enforce visited j j2 u = true := by
    rw [Enforce_sameHostname_iff visited k k2 u hsame,
      Enforce_sameHostname_iff visited j j2 u hsame]
  cases h1 : Enforce visited k k2 u <;> cases h2 : Enforce visited j j2 u <;> simp_all

/-- C23 on the visited set `{/foo, /bar}` of `example.com` and the candidate
`http://example.com:8080/baz/`. -/
theorem C23_reference_entry_witness :
    (∀ a ∈ [exFoo, exBar], ∀ b ∈ [exFoo, exBar], a.Hostname = b.Hostname) ∧
    Enforce [exFoo, exBar] 0 0 exBaz = Enforce [exFoo, exBar] 1 5 exBaz ∧
    Enforce [exFoo, exBar] 0 0 exBaz = true :=
  ⟨by decide,
    (C23_reference_entry [exFoo, exBar] 0 1 0 5 exBaz (by decide)).1,
    by decide⟩

/-! ## One admission for a URL discovered by several branches -/

theorem written_append (a b : List Call) : written (a ++ b) = written a ++ written b := by
  simp [written, List.filterMap_append]

theorem checked_append (a b : List Call) : checked (a ++ b) = checked a ++ checked b := by
  simp [checked, List.filterMap_append]

/-- An attempt on a nil URL writes no URL. -/
theorem crawl_site_none_written (site : URL → Page) (w : World Env) :
    written (crawl (siteCrawler site) none w).2.calls = written w.calls := by
  simp only [crawl, check, siteCrawler, memoryStorer, sameDomainOnceEnforcer, Memory.Read,
    EnforcePtr, Memory.Write]
  cases isNothingVisited (getDomain w.env.store.data (w.env.order.headD 0)) <;>
    simp [written_append, written]

/-- The store and the writes after an attempt on a site: as before, or the URL was
admitted, added to the store and written once. -/
theorem crawl_site_written (site : URL → Page) (u : Option URL) (w : World Env) :
    ((crawl (siteCrawler site) u w).2.env.store = w.env.store ∧
        written (crawl (siteCrawler site) u w).2.calls = written w.calls) ∨
      ∃ v k k2, u = some v ∧ Enforce w.env.store.data k k2 v = true ∧
        (crawl (siteCrawler site) u w).2.env.store.data = w.env.store.data ++ [v] ∧
        written (crawl (siteCrawler site) u w).2.calls = written w.calls ++ [v] := by
  cases u with
  | none => exact Or.inl ⟨crawl_site_none_store site w, crawl_site_none_written site w⟩
  | some v =>
    rw [crawl_site_some]
    by_cases hE : Enforce w.env.store.data (w.env.order.headD 0) (w.env.order.tail.headD 0) v
        = true
    · rw [if_pos hE]
      obtain ⟨_, hwr, _⟩ := write_admitted hE
      refine Or.inr ⟨v, _, _, rfl, hE, ?_⟩
      cases hs : site v <;> simp [admittedWorld, hwr, written_append, written]
    · rw [if_neg hE]
      refine Or.inl ⟨rfl, ?_⟩
      simp [written_append, written]

theorem step_site_written (site : URL → Page) (k : Nat) (w : World Env)
    (hw : WrittenInv w) : WrittenInv (step (siteCrawler site) k w) := by
  unfold step
  split
  · exact hw
  · split
    · exact hw
    · exact ⟨hw.distinct, hw.writtenStore⟩
    · rename_i u _
      have h : WrittenInv (crawl (siteCrawler site) u
          { w with tasks := w.tasks.eraseIdx (k % w.tasks.length) }).2 := by
        rcases crawl_site_written site u { w with tasks := w.tasks.eraseIdx (k % w.tasks.length) }
          with ⟨h1, h2⟩ | ⟨v, k1, k2, _, hE, h1, h2⟩
        · exact ⟨by rw [h1]; exact hw.distinct, by rw [h2, h1]; exact hw.writtenStore⟩
        · refine ⟨?_, ?_⟩
          · rw [h1]
            exact (write_admitted hE).2.2 hw.distinct
          · rw [h2, h1]
            simp only
            rw [hw.writtenStore]
      split <;> rename_i hc <;> rw [hc] at h <;> exact ⟨h.distinct, h.writtenStore⟩

theorem runSched_site_written (site : URL → Page) (sched : List Nat) (w : World Env)
    (hw : WrittenInv w) : WrittenInv (runSched (siteCrawler site) sched w) := by
  induction sched generalizing w with
  | nil => exact hw
  | cons k rest ih =>
    rw [runSched_cons]
    exact ih _ (step_site_written site k w hw)

/-- The first step of a crawl of a site whose seed page has links: what is written and
what was checked. -/
theorem step_single_admit_log (site : URL → Page) (k : Nat) (w : World Env) (v : URL)
    (found : List URL) (hp : w.panicked = false) (ht : w.tasks = [Task.run (some v)])
    (hE : Enforce w.env.store.data (w.env.order.headD 0) (w.env.order.tail.headD 0) v = true)
    (hs : site v = Page.links found) :
    written (step (siteCrawler site) k w).calls = written w.calls ++ [v] ∧
    checked (step (siteCrawler site) k w).calls = checked w.calls ++ [v] := by
  unfold step
  rw [if_neg (by simp [hp])]
  simp only [ht, List.length_singleton, Nat.mod_one, List.get?_cons_zero, List.eraseIdx_cons_zero]
  rw [crawl_site_some, if_pos hE, hs]
  simp [admittedWorld, written_append, checked_append, written, checked]

theorem Enforce_fan_first (seed u : URL) (k k2 : Nat) (hh : u.Hostname = seed.Hostname)
    (hp : ¬ PathEquiv seed u) : Enforce [seed] k k2 u = true := by
  rw [Enforce_eq_true_iff]
  refine Or.inr ⟨?_, ?_⟩
  · cases hd : getDomain [seed] k with
    | none => exact absurd ((getDomain_eq_none_iff _ _).mp hd) (by simp)
    | some d =>
      obtain ⟨key, hk, hkd⟩ := getDomain_some_mem hd
      rw [List.mem_singleton] at hk
      rw [← hkd, hk, hh]
  · rintro ⟨x, hx, hxu⟩
    rw [List.mem_singleton] at hx
    exact hp (hx ▸ hxu)

theorem step_fan (seed u : URL) (n : Nat) (k : Nat) (w : World Env)
    (hh : u.Hostname = seed.Hostname) (hp : ¬ PathEquiv seed u)
    (hinv : FanInv seed u n w) (hne : w.tasks ≠ []) :
    FanInv seed u n (step (siteCrawler (fanSite seed u n)) k w) ∧
      (step (siteCrawler (fanSite seed u n)) k w).tasks.length + 1 = w.tasks.length ∧
      written (step (siteCrawler (fanSite seed u n)) k w).calls = [seed, u] := by
  have hus : u ≠ seed := fun h => hp (by rw [h]; rfl)
  have hsite : fanSite seed u n u = Page.links [] := by simp [fanSite, hus]
  have hlen : 0 < w.tasks.length := List.length_pos.mpr hne
  have hi : k % w.tasks.length < w.tasks.length := Nat.mod_lt _ hlen
  obtain ⟨t, ht⟩ : ∃ t, w.tasks.get? (k % w.tasks.length) = some t :=
    ⟨_, List.get?_eq_get hi⟩
  have htu := hinv.tasksU t (List.get?_mem ht)
  subst htu
  have hel : (w.tasks.eraseIdx (k % w.tasks.length)).length + 1 = w.tasks.length := by
    simp only [List.length_eraseIdx, hi, if_true]
    omega
  have hsub : ∀ t ∈ w.tasks.eraseIdx (k % w.tasks.length), t = Task.run (some u) :=
    fun t h => hinv.tasksU t (List.mem_of_mem_eraseIdx h)
  unfold step
  rw [if_neg (by simp [hinv.notPanicked]), ht]
  simp only
  rw [crawl_site_some]
  rcases hinv.stage with ⟨hA1, hA2, hA3, hA4⟩ | ⟨hB1, hB2, hB3, hB4⟩
  · -- no branch has run: this one is admitted
    have hE : Enforce w.env.store.data (w.env.order.headD 0) (w.env.order.tail.headD 0) u
        = true := by
      rw [hA2]
      exact Enforce_fan_first seed u _ _ hh hp
    obtain ⟨_, hwr, _⟩ := write_admitted hE
    rw [hA2] at hwr
    rw [if_pos hE, hsite]
    simp only [admittedWorld, List.map_nil, List.append_nil]
    have hwritten : written (w.calls ++ [Call.Read, Call.Enforce w.env.store.data (some u),
        Call.Write (some u)] ++ [Call.Request u, Call.Do (some { URL := some u }),
        Call.Scrape (some { URL := some u }) (some ""), Call.Info (some u) []])
        = [seed, u] := by
      rw [written_append, written_append, hA3]
      simp [written]
    have hchecked : (checked (w.calls ++ [Call.Read, Call.Enforce w.env.store.data (some u),
        Call.Write (some u)] ++ [Call.Request u, Call.Do (some { URL := some u }),
        Call.Scrape (some { URL := some u }) (some ""),
        Call.Info (some u) []])).count u = 1 := by
      rw [checked_append, checked_append, List.count_append, List.count_append, hA4]
      simp [checked]
    refine ⟨⟨hinv.notPanicked, hinv.noErr, hsub, Or.inr ⟨?_, ?_, hwritten, ?_⟩⟩, hel, hwritten⟩
    · simp only
      omega
    · have : (w.env.store.Write (some u)).1.data = [seed, u] := by
        have h2 : w.env.store = { data := [seed] } := by
          cases hst : w.env.store with
          | mk data =>
            rw [hst] at hA2
            simp only at hA2
            rw [hA2]
        rw [h2, hwr]
        rfl
      exact this
    · simp only
      rw [hchecked]
      omega
  · -- `u` is stored: this branch is rejected
    have hE : Enforce w.env.store.data (w.env.order.headD 0) (w.env.order.tail.headD 0) u
        = false := by
      rw [hB2]
      exact Enforce_eq_false_of_pathEquiv _ _ (show u ∈ [seed, u] by simp) (rfl : PathEquiv u u)
    rw [if_neg (by rw [hE]; simp)]
    have hwritten : written (w.calls ++ [Call.Read, Call.Enforce w.env.store.data (some u)])
        = [seed, u] := by
      rw [written_append, hB3]
      simp [written]
    have hchecked : (checked (w.calls ++ [Call.Read,
        Call.Enforce w.env.store.data (some u)])).count u = (checked w.calls).count u + 1 := by
      rw [checked_append, List.count_append]
      simp [checked]
    refine ⟨⟨hinv.notPanicked, hinv.noErr, hsub, Or.inr ⟨?_, hB2, hwritten, ?_⟩⟩, hel, hwritten⟩
    · simp only
      omega
    · simp only
      rw [hchecked]
      omega

theorem runSched_fan (seed u : URL) (n : Nat) (sched : List Nat) (w : World Env)
    (hh : u.Hostname = seed.Hostname) (hp : ¬ PathEquiv seed u) (hn : 0 < n)
    (hinv : FanInv seed u n w) :
    FanInv seed u n (runSched (siteCrawler (fanSite seed u n)) sched w) ∧
      (w.tasks.length ≤ sched.length →
        (runSched (siteCrawler (fanSite seed u n)) sched w).tasks = []) ∧
      (sched ≠ [] →
        written (runSched (siteCrawler (fanSite seed u n)) sched w).calls = [seed, u]) := by
  have hdone : ∀ w2 : World Env, FanInv seed u n w2 → w2.tasks = [] →
      written w2.calls = [seed, u] := by
    intro w2 h2 ht
    rcases h2.stage with ⟨hA1, _, _, _⟩ | ⟨_, _, hB3, _⟩
    · rw [ht] at hA1
      simp only [List.length_nil] at hA1
      omega
    · exact hB3
  induction sched generalizing w with
  | nil =>
    refine ⟨hinv, fun h => ?_, fun h => absurd rfl h⟩
    simp only [List.length_nil, Nat.le_zero] at h
    exact List.length_eq_zero.mp h
  | cons k rest ih =>
    rw [runSched_cons]
    by_cases hne : w.tasks = []
    · rw [step_idle _ k w hne, runSched_idle _ rest w hne]
      exact ⟨hinv, fun _ => hne, fun _ => hdone w hinv hne⟩
    · obtain ⟨hinv2, hl, hw2⟩ := step_fan seed u n k w hh hp hinv hne
      obtain ⟨i1, i2, i3⟩ := ih _ hinv2
      refine ⟨i1, fun h => i2 ?_, fun _ => ?_⟩
      · simp only [List.length_cons] at h
        omega
      · cases rest with
        | nil => exact hw2
        | cons k2 rest2 => exact i3 (by simp)

/-- C4, as stated, fails: on a site whose seed page `https://example.com/foo` links four
times to `http://localhost`, the four branches that discover that URL all run their check
and none admits it: it is never written. -/
theorem C4_counterexample :
    fanSite exFoo exLocalhost 4 exFoo
      = Page.links [exLocalhost, exLocalhost, exLocalhost, exLocalhost] ∧
    (Crawl (siteCrawler (fanSite exFoo exLocalhost 4)) (some exFoo) [0, 0, 0, 0, 0]
        (freshWorld [])).2.tasks = [] ∧
    (checked (Crawl (siteCrawler (fanSite exFoo exLocalhost 4)) (some exFoo) [0, 0, 0, 0, 0]
        (freshWorld [])).2.calls).count exLocalhost = 4 ∧
    (written (Crawl (siteCrawler (fanSite exFoo exLocalhost 4)) (some exFoo) [0, 0, 0, 0, 0]
        (freshWorld [])).2.calls).count exLocalhost = 0 := by
  refine ⟨by decide, by decide, by decide, by decide⟩

/-- C4, amended. With the default policy and the in-memory store, `check` being one step
of one goroutine (it runs under the lock `c.mu`), for every site, seed, starting entries
of the map loops and schedule of the goroutines: the URLs written are exactly the stored
ones, no URL is written twice and no two written URLs have the same path up to one
trailing slash, so at most one branch admits a URL; an attempt on a URL that is stored,
or path-equivalent to a stored one, or of another hostname than every stored one, is
rejected, returning nil after `Read` and `Enforce` only.  When the seed's page links `n` times to a URL `u` that the policy can admit (the
seed's hostname, another path), then as soon as one of the `n` branches has run `u` is
written, once, and when all have run `Crawl` returns nil, `n` branches have been checked
and `u` has been written once: one branch admitted it and the others were rejected. -/
theorem C4_one_admission (site : URL → Page) (seed : URL) (order sched : List Nat) :
    (written (Crawl (siteCrawler site) (some seed) sched (freshWorld order)).2.calls
        = (Crawl (siteCrawler site) (some seed) sched (freshWorld order)).2.env.store.data ∧
      (written (Crawl (siteCrawler site) (some seed) sched (freshWorld order)).2.calls).Pairwise
        (fun a b => TrimSuffix a.Path "/" ≠ TrimSuffix b.Path "/") ∧
      ∀ u, (written (Crawl (siteCrawler site) (some seed) sched
          (freshWorld order)).2.calls).count u ≤ 1) ∧
    (∀ (w : World Env) (x v : URL), x ∈ w.env.store.data →
      (v = x ∨ TrimSuffix x.Path "/" = TrimSuffix v.Path "/") →
        crawl (siteCrawler site) (some v) w =
          (Ret.ok none,
            { w with env := { store := w.env.store, order := w.env.order.tail.tail },
                     calls := w.calls ++ [Call.Read, Call.Enforce w.env.store.data (some v)] })) ∧
    (∀ (w : World Env) (v : URL), w.env.store.data ≠ [] →
      (∀ x ∈ w.env.store.data, v.Hostname ≠ x.Hostname) →
        crawl (siteCrawler site) (some v) w =
          (Ret.ok none,
            { w with env := { store := w.env.store, order := w.env.order.tail.tail },
                     calls := w.calls ++ [Call.Read, Call.Enforce w.env.store.data (some v)] })) ∧
    (∀ (u : URL) (n : Nat), 0 < n → u.Hostname = seed.Hostname →
      TrimSuffix seed.Path "/" ≠ TrimSuffix u.Path "/" →
        (2 ≤ sched.length →
          written (Crawl (siteCrawler (fanSite seed u n)) (some seed) sched
            (freshWorld order)).2.calls = [seed, u]) ∧
        (n + 1 ≤ sched.length →
          (Crawl (siteCrawler (fanSite seed u n)) (some seed) sched (freshWorld order)).1
            = Outcome.returned none ∧
          (Crawl (siteCrawler (fanSite seed u n)) (some seed) sched (freshWorld order)).2.tasks
            = [] ∧
          (checked (Crawl (siteCrawler (fanSite seed u n)) (some seed) sched
            (freshWorld order)).2.calls).count u = n ∧
          (written (Crawl (siteCrawler (fanSite seed u n)) (some seed) sched
            (freshWorld order)).2.calls).count u = 1)) := by
  refine ⟨?_, ?_, ?_, ?_⟩
  · rw [(Crawl_some (siteCrawler site) seed sched (freshWorld order)).1]
    have hinv := runSched_site_written site sched (goCrawl (some seed) (freshWorld order))
      ⟨List.Pairwise.nil, rfl⟩
    have hpd : PathDistinct (written (runSched (siteCrawler site) sched
        (goCrawl (some seed) (freshWorld order))).calls) := by
      rw [hinv.writtenStore]
      exact hinv.distinct
    refine ⟨hinv.writtenStore, hpd, ?_⟩
    have hnd : (written (runSched (siteCrawler site) sched
        (goCrawl (some seed) (freshWorld order))).calls).Nodup := by
      refine List.Pairwise.imp ?_ hpd
      intro x y hxy hEq
      exact hxy (by rw [hEq]; rfl)
    exact fun u => List.nodup_iff_count_le_one.mp hnd u
  · intro w x v hx hv
    have hp : PathEquiv x v := by
      rcases hv with h | h
      · rw [h]; rfl
      · exact h
    have hE := Enforce_eq_false_of_pathEquiv (w.env.order.headD 0) (w.env.order.tail.headD 0)
      hx hp
    rw [crawl_site_some, if_neg (by rw [hE]; simp)]
  · intro w v hne hdiff
    have hE : Enforce w.env.store.data (w.env.order.headD 0) (w.env.order.tail.headD 0) v
        = false := by
      cases h : Enforce w.env.store.data (w.env.order.headD 0) (w.env.order.tail.headD 0) v with
      | false => rfl
      | true =>
        rcases (Enforce_eq_true_iff _ _ _ _).mp h with h0 | ⟨hd, _⟩
        · exact absurd h0 hne
        · obtain ⟨key, hk, hkd⟩ := getDomain_some_mem hd
          exact absurd hkd.symm (hdiff key hk)
    rw [crawl_site_some, if_neg (by rw [hE]; simp)]
  · intro u n hn hh hp
    have hus : u ≠ seed := fun h => hp (by rw [h])
    have hseed : fanSite seed u n seed = Page.links (List.replicate n u) := by simp [fanSite]
    obtain ⟨hw, hout⟩ := Crawl_some (siteCrawler (fanSite seed u n)) seed sched
      (freshWorld order)
    rw [hw]
    cases sched with
    | nil =>
      refine ⟨fun h => ?_, fun h => ?_⟩
      · simp at h
      · simp at h
    | cons k rest =>
      have hE0 : Enforce (goCrawl (some seed) (freshWorld order)).env.store.data
          ((goCrawl (some seed) (freshWorld order)).env.order.headD 0)
          ((goCrawl (some seed) (freshWorld order)).env.order.tail.headD 0) seed = true :=
        (Enforce_eq_true_iff _ _ _ _).mpr (Or.inl rfl)
      obtain ⟨p1, t1, d1, _, e1⟩ :=
        step_single_admit (fanSite seed u n) k (goCrawl (some seed) (freshWorld order)) seed
          (List.replicate n u) rfl rfl hE0 hseed
      obtain ⟨l1, l2⟩ :=
        step_single_admit_log (fanSite seed u n) k (goCrawl (some seed) (freshWorld order)) seed
          (List.replicate n u) rfl rfl hE0 hseed
      have hinv1 : FanInv seed u n (step (siteCrawler (fanSite seed u n)) k
          (goCrawl (some seed) (freshWorld order))) := by
        refine ⟨p1, by rw [e1]; rfl, ?_, Or.inl ⟨?_, by rw [d1]; rfl, by rw [l1]; rfl, ?_⟩⟩
        · intro t ht
          rw [t1, List.mem_map] at ht
          obtain ⟨x, hx, rfl⟩ := ht
          rw [List.eq_of_mem_replicate hx]
        · rw [t1]
          simp
        · rw [l2]
          have : checked (goCrawl (some seed) (freshWorld order)).calls = [] := rfl
          rw [this]
          simp [hus]
      obtain ⟨hinv, hterm, hwr⟩ :=
        runSched_fan seed u n rest _ hh hp hn hinv1
      rw [runSched_cons]
      rw [runSched_cons] at hout
      refine ⟨fun h => ?_, fun h => ?_⟩
      · apply hwr
        intro hrest
        rw [hrest] at h
        simp at h
      · have ht : (runSched (siteCrawler (fanSite seed u n)) rest
            (step (siteCrawler (fanSite seed u n)) k
              (goCrawl (some seed) (freshWorld order)))).tasks = [] := by
          apply hterm
          rw [t1]
          simp only [List.length_map, List.length_replicate, List.length_cons] at h ⊢
          omega
        refine ⟨?_, ht, ?_, ?_⟩
        · rw [(hout hinv.notPanicked).2 ht, hinv.noErr]
        · rcases hinv.stage with ⟨hA1, _, _, _⟩ | ⟨_, _, _, hB4⟩
          · rw [ht] at hA1
            simp only [List.length_nil] at hA1
            omega
          · rw [ht] at hB4
            simpa using hB4
        · rcases hinv.stage with ⟨hA1, _, _, _⟩ | ⟨_, _, hB3, _⟩
          · rw [ht] at hA1
            simp only [List.length_nil] at hA1
            omega
          · rw [hB3]
            simp [hus]

/-- C4, amended, on a seed `https://example.com/foo` whose page links four times to
`https://example.com/bar`: under the schedule `3, 1, 0, 2, 0` the URL is written once and
checked four times. -/
theorem C4_one_admission_witness :
    (0 < 4 ∧ exBar.Hostname = exFoo.Hostname ∧
      TrimSuffix exFoo.Path "/" ≠ TrimSuffix exBar.Path "/" ∧
      4 + 1 ≤ [3, 1, 0, 2, 0].length) ∧
    (Crawl (siteCrawler (fanSite exFoo exBar 4)) (some exFoo) [3, 1, 0, 2, 0]
        (freshWorld [1])).1 = Outcome.returned none ∧
    (Crawl (siteCrawler (fanSite exFoo exBar 4)) (some exFoo) [3, 1, 0, 2, 0]
        (freshWorld [1])).2.tasks = [] ∧
    (checked (Crawl (siteCrawler (fanSite exFoo exBar 4)) (some exFoo) [3, 1, 0, 2, 0]
        (freshWorld [1])).2.calls).count exBar = 4 ∧
    (written (Crawl (siteCrawler (fanSite exFoo exBar 4)) (some exFoo) [3, 1, 0, 2, 0]
        (freshWorld [1])).2.calls).count exBar = 1 :=
  ⟨by decide,
    ((C4_one_admission (fanSite exFoo exBar 4) exFoo [1] [3, 1, 0, 2, 0]).2.2.2 exBar 4
      (by decide) (by decide) (by decide)).2 (by decide)⟩

end crawler
